import Mathlib

/-!
# Flight simulator (`mygame.c`): shallow embedding and verified properties

The game of `mygame.c` is one control loop over three fixed-capacity pools
(the player magazine, the shared enemy magazine and the enemy roster) plus a
`SIGALRM` handler that spawns enemies.  This file embeds the state-changing
functions of that program as pure Lean functions and proves properties of them.

Conventions of the embedding

* A C array reached through a pointer (`bullet *mag`, `enemy *enemies`) is the
  function from an index to the cell at that index.  The allocation made in
  `main` covers the indices below the pool's capacity (`MAGSIZE`,
  `MAGSIZE * ENEMIES`, `ENEMIES`); a larger index denotes the memory that
  follows the allocation, so a loop that runs past the capacity is embedded as
  it is written.
* `int` coordinates and counters are `Int` (no tick count of a real game brings
  them near the 32-bit limits); the write cursors and loop counters, which
  start at `0` and only see `++` and `%=`, are `Nat`.
* The `alive` fields only ever hold ncurses' `FALSE` (0) or `TRUE` (1) and are
  `Bool`; on these values the bitwise `&` of `update_bullets` is conjunction.
* The glyph fields (`s`, `top`, `cab`, `mid`, `bot`) are only handed to
  `mvprintw`; they are left out together with the drawing calls.
* `rand()` is the next element of an explicit list of raw samples; a loop
  that resamples until a condition holds yields `none` when the list runs out
  before an acceptable sample is found.
* `getmaxyx` is an explicit screen size `(max_x, max_y)`.
-/

set_option maxRecDepth 1000000

namespace FlightSim

/-! ## Constants -/

/-- `#define PLANEWIDTH 16` -/
abbrev PLANEWIDTH : Int := 16
/-- `#define ENEMYWIDTH 5` -/
abbrev ENEMYWIDTH : Int := 5
/-- `#define MAGSIZE 10` -/
abbrev MAGSIZE : Nat := 10
/-- `#define ENEMIES 8` -/
abbrev ENEMIES : Nat := 8
/-- `#define MAXHEALTH 10` -/
abbrev MAXHEALTH : Int := 10
/-- `#define SHOTGUN 5` -/
abbrev SHOTGUN : Nat := 5
/-- `#define MINALRM 1` -/
abbrev MINALRM : Int := 1
/-- `#define MAXALRM 6` -/
abbrev MAXALRM : Int := 6

/-! ## Data structures -/

/-- `struct bullet` without its glyph. -/
structure bullet where
  x : Int
  y : Int
  dir : Int
  alive : Bool
deriving DecidableEq

/-- `struct enemy` without its four text rows. -/
structure enemy where
  x : Int
  y : Int
  alive : Bool
deriving DecidableEq

/-- A magazine as seen through its `bullet *`: index to cell. -/
abbrev Mag := Nat → bullet

/-- The roster as seen through its `enemy *`: index to cell. -/
abbrev Roster := Nat → enemy

/-- The file-level globals of `mygame.c` (the timer values apart). -/
structure Globals where
  enemies : Roster
  enemy_bullet_index : Nat
  num_enemies : Int
  enemy_index : Nat
  enemies_destroyed : Int
  alarm_delay : Int

/-! ## Loops -/

/-- The loop `for (int i = 0; i < n; i++) s = body i s`: the iterations
`0, 1, ..., n - 1` in that order. -/
def loop {σ : Type} (body : Nat → σ → σ) : Nat → σ → σ
  | 0, s => s
  | n + 1, s => body n (loop body n s)

/-- The same loop for a body that may fail to return. -/
def loopOpt {σ : Type} (body : Nat → σ → Option σ) : Nat → σ → Option σ
  | 0, s => some s
  | n + 1, s => (loopOpt body n s).bind (body n)

/-! ## Magazine operations -/

/-- The effect of `shoot_bullet(b, x, y)` on the cell `*b`. -/
def shoot_bullet (b : bullet) (x y : Int) : bullet :=
  { b with x := x, y := y, alive := true }

/-- The statement pair `shoot_bullet(&mag[index++], x, y); index %= capacity;`
with which `main` (single shot and volley) and `update_enemies` fire, on the
pair (magazine, write cursor). -/
def fire (capacity : Nat) (st : Mag × Nat) (x y : Int) : Mag × Nat :=
  (Function.update st.1 st.2 (shoot_bullet (st.1 st.2) x y), (st.2 + 1) % capacity)

/-- The test `mag[i].y >= max_y && mag[i].alive & mag[i].y != 0` of
`update_bullets`; C parses it as `(y >= max_y) && (alive & (y != 0))`. -/
def expires (max_y : Int) (b : bullet) : Bool :=
  decide (b.y ≥ max_y) && (b.alive && decide (b.y ≠ 0))

/-- One iteration of the `for` loop of `update_bullets` on the pair
(magazine, `bullets`). -/
def update_bullets_body (max_y : Int) (i : Nat) (st : Mag × Int) : Mag × Int :=
  if expires max_y (st.1 i) then
    (Function.update st.1 i { st.1 i with alive := false }, st.2 + 1)
  else
    (Function.update st.1 i { st.1 i with y := (st.1 i).y + (st.1 i).dir }, st.2)

/-- `update_bullets(mag, bullets, friendly)` on a screen of height `max_y`:
the magazine after the call and the returned count. -/
def update_bullets (max_y : Int) (mag : Mag) (bullets : Int) (friendly : Bool) :
    Mag × Int :=
  let total_bullets := if friendly then MAGSIZE else MAGSIZE * ENEMIES
  loop (update_bullets_body max_y) total_bullets (mag, bullets)

/-! ## Random numbers -/

/-- `my_random(min, max)` when `rand()` returns `r`; `/` of C truncates.  For
`max - min + 1 = 0` the C division is undefined, and `Int.tdiv` gives 0. -/
def my_random (RAND_MAX r min max : Int) : Int :=
  min + Int.tdiv r (Int.tdiv RAND_MAX (max - min + 1) + 1)

/-- The pattern `v = my_random(-1, 1); while (bad v) v = my_random(-1, 1);`
of `update_enemies`: the accepted step and the samples left, or `none` when
the samples run out first. -/
def sample_step (RAND_MAX : Int) (bad : Int → Bool) : List Int → Option (Int × List Int)
  | [] => none
  | r :: rs =>
    if bad (my_random RAND_MAX r (-1) 1) then sample_step RAND_MAX bad rs
    else some (my_random RAND_MAX r (-1) 1, rs)

/-! ## Enemies -/

/-- What `update_enemies` reads and writes besides the player magazine: the
enemy magazine, the globals, and the samples `rand()` has yet to return. -/
structure EnemyPass where
  enemy_mag : Mag
  g : Globals
  rand : List Int

/-- One iteration of the inner loop of `update_enemies` (the collision test of
enemy `i` against `friendly_mag[j]`). -/
def collide_body (friendly_mag : Mag) (i j : Nat) (g : Globals) : Globals :=
  if (g.enemies i).y = (friendly_mag j).y then
    if (friendly_mag j).x ≥ (g.enemies i).x ∧
        (friendly_mag j).x ≤ (g.enemies i).x + ENEMYWIDTH then
      { g with
        num_enemies := g.num_enemies - 1
        enemies_destroyed := g.enemies_destroyed + 1
        enemies := Function.update g.enemies i { g.enemies i with alive := false } }
    else g
  else g

/-- The `if (enemies[i].alive)` branch of `update_enemies`: the random walk
and the return fire of enemy `i`. -/
def move_enemy (RAND_MAX max_x max_y : Int) (i : Nat) (st : EnemyPass) :
    Option EnemyPass :=
  let e := st.g.enemies i
  match sample_step RAND_MAX
      (fun xrand => decide (e.x + xrand ≤ 0) || decide (e.x + xrand + ENEMYWIDTH ≥ max_x))
      st.rand with
  | none => none
  | some (xrand, rs1) =>
    match sample_step RAND_MAX
        (fun yrand => decide (e.y + yrand ≤ 0) || decide (e.y + yrand ≥ max_y)) rs1 with
    | none => none
    | some (yrand, rs2) =>
      let e1 : enemy := { e with x := e.x + xrand, y := e.y + yrand }
      let enemies1 := Function.update st.g.enemies i e1
      if xrand = 0 ∧ yrand = 0 then
        let fired :=
          fire (ENEMIES * MAGSIZE) (st.enemy_mag, st.g.enemy_bullet_index) (e1.x + 2) (e1.y - 4)
        some
          { enemy_mag := fired.1
            g := { st.g with enemies := enemies1, enemy_bullet_index := fired.2 }
            rand := rs2 }
      else
        some { st with g := { st.g with enemies := enemies1 }, rand := rs2 }

/-- One iteration of the outer loop of `update_enemies`: enemy `i` moves when
alive, then the collision scan runs over `j < MAGSIZE * ENEMIES`. -/
def update_enemies_body (RAND_MAX max_x max_y : Int) (friendly_mag : Mag) (i : Nat)
    (st : EnemyPass) : Option EnemyPass :=
  (if (st.g.enemies i).alive then move_enemy RAND_MAX max_x max_y i st else some st).map
    (fun st1 => { st1 with g := loop (collide_body friendly_mag i) (MAGSIZE * ENEMIES) st1.g })

/-- `update_enemies(friendly_mag, enemy_mag, enemies)` on a screen of size
`(max_x, max_y)`; `none` when a resampling loop does not end within `rand`. -/
def update_enemies (RAND_MAX max_x max_y : Int) (friendly_mag : Mag) (st : EnemyPass) :
    Option EnemyPass :=
  loopOpt (update_enemies_body RAND_MAX max_x max_y friendly_mag) ENEMIES st

/-- The effect of `spawn_enemy(e, x, y)` on the cell `*e` and on `num_enemies`. -/
def spawn_enemy (e : enemy) (x y : Int) (num_enemies : Int) : enemy × Int :=
  ({ e with x := x, y := y, alive := true }, num_enemies + 1)

/-- `alarm_handler` on a screen of size `(max_x, max_y)`, atomically; `r_spawn`
is the sample `rand()` returns for the spawn column (drawn only when a spawn
happens) and `r_delay` the one for the next alarm delay. -/
def alarm_handler (RAND_MAX max_x max_y r_spawn r_delay : Int) (g : Globals) : Globals :=
  let g1 : Globals :=
    if g.num_enemies < ENEMIES then
      let x := my_random RAND_MAX r_spawn 0 (max_x - ENEMYWIDTH)
      let y := max_y - 3
      let sp := spawn_enemy (g.enemies g.enemy_index) x y g.num_enemies
      { g with
        enemies := Function.update g.enemies g.enemy_index sp.1
        num_enemies := sp.2
        enemy_index := (g.enemy_index + 1) % ENEMIES }
    else g
  { g1 with alarm_delay := my_random RAND_MAX r_delay MINALRM MAXALRM }

/-! ## Player health -/

/-- One iteration of the loop of `update_health`. -/
def update_health_body (enemy_mag : Mag) (x y : Int) (i : Nat) (health : Int) : Int :=
  if (enemy_mag i).y = y then
    if (enemy_mag i).x ≥ x ∧ (enemy_mag i).x ≤ x + PLANEWIDTH then health - 1 else health
  else health

/-- `update_health(enemy_mag, health, x, y)`. -/
def update_health (enemy_mag : Mag) (health x y : Int) : Int :=
  loop (update_health_body enemy_mag x y) (MAGSIZE * ENEMIES) health

/-! ## The game loop of `main` -/

/-- The locals of `main` that the loop reads and writes, and the globals. -/
structure Game where
  x : Int
  y : Int
  health : Int
  bullet_index : Nat
  bullets : Int
  game_over : Bool
  friendly_mag : Mag
  enemy_mag : Mag
  g : Globals

/-- ncurses' `KEY_DOWN` (0402). -/
abbrev KEY_DOWN : Int := 258
/-- ncurses' `KEY_UP` (0403). -/
abbrev KEY_UP : Int := 259
/-- ncurses' `KEY_LEFT` (0404). -/
abbrev KEY_LEFT : Int := 260
/-- ncurses' `KEY_RIGHT` (0405). -/
abbrev KEY_RIGHT : Int := 261
/-- The local `xdirection` of `main`, never assigned after its initialisation. -/
abbrev xdirection : Int := 3
/-- The local `ydirection` of `main`, never assigned after its initialisation. -/
abbrev ydirection : Int := 1

/-- One iteration of the volley loop of `case '\n'` on the pair
(`friendly_mag`, `bullet_index`). -/
def volley_body (x y : Int) (i : Nat) (st : Mag × Nat) : Mag × Nat :=
  fire MAGSIZE st (x + Int.tdiv ((i : Int) * PLANEWIDTH) 4) (y + 1)

/-- The `switch (key)` of `main`; the character cases are given by their codes
(`'w'` is 119, `' '` is 32, `'\n'` is 10, ...). -/
def handle_key (max_x max_y key : Int) (s : Game) : Game :=
  if key = KEY_UP ∨ key = 87 ∨ key = 119 then
    if s.y > 2 then { s with y := s.y - ydirection } else s
  else if key = KEY_DOWN ∨ key = 83 ∨ key = 115 then
    if s.y < max_y - 2 then { s with y := s.y + ydirection } else s
  else if key = KEY_LEFT ∨ key = 65 ∨ key = 97 then
    if s.x > xdirection then { s with x := s.x - xdirection } else s
  else if key = KEY_RIGHT ∨ key = 68 ∨ key = 100 then
    if s.x + PLANEWIDTH + xdirection < max_x then { s with x := s.x + xdirection } else s
  else if key = 32 then
    if s.bullets ≠ 0 then
      let fired :=
        fire MAGSIZE (s.friendly_mag, s.bullet_index) (s.x + Int.tdiv PLANEWIDTH 2) (s.y + 1)
      { s with bullets := s.bullets - 1, friendly_mag := fired.1, bullet_index := fired.2 }
    else s
  else if key = 10 then
    if s.bullets ≥ SHOTGUN then
      let fired := loop (volley_body s.x s.y) SHOTGUN (s.friendly_mag, s.bullet_index)
      { s with bullets := s.bullets - SHOTGUN, friendly_mag := fired.1, bullet_index := fired.2 }
    else s
  else if key = 81 ∨ key = 113 then
    { s with game_over := true }
  else s

/-- The update calls at the top of one iteration of the `while` loop of `main`
(lines 198 to 204), with `rand` the samples `rand()` returns during them. -/
def update_phase (RAND_MAX max_x max_y : Int) (rand : List Int) (s : Game) : Option Game :=
  let fb := update_bullets max_y s.friendly_mag s.bullets true
  let eb := update_bullets max_y s.enemy_mag 0 false
  match update_enemies RAND_MAX max_x max_y fb.1 ⟨eb.1, s.g, rand⟩ with
  | none => none
  | some st =>
    let health := update_health st.enemy_mag s.health s.x s.y
    some { s with
           friendly_mag := fb.1
           bullets := fb.2
           enemy_mag := st.enemy_mag
           g := st.g
           health := health
           game_over := if health ≤ 0 then true else s.game_over }

/-- One iteration of the `while (!game_over)` loop of `main`: the updates, then
the key read by `getch()`. -/
def tick (RAND_MAX max_x max_y key : Int) (rand : List Int) (s : Game) : Option Game :=
  (update_phase RAND_MAX max_x max_y rand s).map (handle_key max_x max_y key)

/-- One iteration of the loops of `init_mag`. -/
def init_mag_body (friendly : Bool) (i : Nat) (mag : Mag) : Mag :=
  Function.update mag i ⟨0, 0, if friendly then 1 else -1, false⟩

/-- `init_mag(mag, friendly)`. -/
def init_mag (mag : Mag) (friendly : Bool) : Mag :=
  loop (init_mag_body friendly) (if friendly then MAGSIZE else ENEMIES * MAGSIZE) mag

/-- `init_enemies(enemies)`. -/
def init_enemies (enemies : Roster) : Roster :=
  loop (fun i r => Function.update r i ⟨0, 0, false⟩) ENEMIES enemies

/-- The state in which `main` enters its loop on a screen of size
`(max_x, max_y)`; `mem_f`, `mem_e`, `mem_r` are the contents of the memory at
the three `malloc`ed pointers before initialisation and `r_delay` the sample
drawn for the first alarm delay. -/
def init_game (RAND_MAX max_x max_y r_delay : Int) (mem_f mem_e : Mag) (mem_r : Roster) :
    Game :=
  { x := Int.tdiv max_x 2 - Int.tdiv PLANEWIDTH 2
    y := Int.tdiv max_y 2
    health := MAXHEALTH
    bullet_index := 0
    bullets := MAGSIZE
    game_over := false
    friendly_mag := init_mag mem_f true
    enemy_mag := init_mag mem_e false
    g := { enemies := init_enemies mem_r
           enemy_bullet_index := 0
           num_enemies := 0
           enemy_index := 0
           enemies_destroyed := 0
           alarm_delay := my_random RAND_MAX r_delay 1 6 } }

/-- What can happen to the running game: an iteration of the loop of `main`
(screen size, key read, samples drawn), or the alarm signal (screen size, the
two samples), each taken as one atomic step. -/
inductive Event where
  | tick (max_x max_y key : Int) (rand : List Int)
  | alarm (max_x max_y r_spawn r_delay : Int)

/-- The game after one event.  Once `game_over` is set the loop has been left
and nothing changes any more; an iteration that does not return gives `none`. -/
def step (RAND_MAX : Int) (s : Game) : Event → Option Game
  | .tick max_x max_y key rand =>
    if s.game_over then some s else tick RAND_MAX max_x max_y key rand s
  | .alarm max_x max_y r_spawn r_delay =>
    if s.game_over then some s
    else some { s with g := alarm_handler RAND_MAX max_x max_y r_spawn r_delay s.g }

/-- The game after a list of events, oldest first. -/
def run (RAND_MAX : Int) : Game → List Event → Option Game
  | s, [] => some s
  | s, e :: es => (step RAND_MAX s e).bind (fun s1 => run RAND_MAX s1 es)

/-! ## Score -/

/-- A finite value of C's `float` (IEEE 754 binary32): the number `m * 2 ^ e`
with `|m| < 2 ^ 24` and `-149 ≤ e ≤ 104`.  Infinities and NaN are left out:
`main` computes `time_alive` as a quotient of finite numbers. -/
structure float where
  m : Int
  e : Int
  hm : -(2 ^ 24) < m ∧ m < 2 ^ 24
  he : -149 ≤ e ∧ e ≤ 104

/-- The number a `float` stands for. -/
def float.val (t : float) : ℚ := t.m * (2 : ℚ) ^ t.e

/-- The number a `float` stands for without its fractional part (rounded
toward zero), computed on the integers. -/
def float.trunc (t : float) : Int :=
  if 0 ≤ t.e then t.m * 2 ^ t.e.toNat else Int.tdiv t.m (2 ^ (-t.e).toNat)

/-- Bullet cell `b` lies on the row of enemy `e` and its column lies in
`[e.x, e.x + ENEMYWIDTH]`. -/
def qualifies (e : enemy) (b : bullet) : Prop :=
  e.y = b.y ∧ b.x ≥ e.x ∧ b.x ≤ e.x + ENEMYWIDTH

instance qualifies_decidable (e : enemy) (b : bullet) : Decidable (qualifies e b) := by
  unfold qualifies; infer_instance

/-- The number of roster slots for which at least one of the `MAGSIZE` slots of
the player magazine qualifies. -/
def qualifying_enemies (friendly_mag : Mag) (enemies : Roster) : Nat :=
  (List.range ENEMIES).countP
    (fun i => (List.range MAGSIZE).any (fun j => decide (qualifies (enemies i) (friendly_mag j))))

/-- Enemy-magazine cell `b` lies on the player's row `y` and its column lies in
`[x, x + PLANEWIDTH]`. -/
def strikes (x y : Int) (b : bullet) : Bool :=
  decide (b.y = y) && (decide (b.x ≥ x) && decide (b.x ≤ x + PLANEWIDTH))

/-- The number of slots `i < MAGSIZE * ENEMIES` of the enemy magazine that
strike a player at `(x, y)`. -/
def hits (enemy_mag : Mag) (x y : Int) : Nat :=
  (List.range (MAGSIZE * ENEMIES)).countP (fun i => strikes x y (enemy_mag i))

/-- The number of slots below `capacity` that are alive. -/
def alive_count (mag : Mag) (capacity : Nat) : Nat :=
  (List.range capacity).countP (fun i => (mag i).alive)

/-- The `k` successive fires `fire capacity _ x y` for the positions `(x, y)`
of a list, oldest first. -/
def fires (capacity : Nat) : List (Int × Int) → Mag × Nat → Mag × Nat
  | [], st => st
  | p :: ps, st => fires capacity ps (fire capacity st p.1 p.2)

/-- The slots below `capacity` that the bounds test of `update_bullets`
selects on a screen of height `max_y`. -/
def expiring (max_y : Int) (mag : Mag) (capacity : Nat) : List Nat :=
  (List.range capacity).filter (fun j => expires max_y (mag j))

/-- The three write cursors are in range. -/
def cursors_in_range (s : Game) : Prop :=
  s.bullet_index < MAGSIZE ∧ s.g.enemy_bullet_index < MAGSIZE * ENEMIES ∧
    s.g.enemy_index < ENEMIES

/-- What the loop of `main` maintains about `health`. -/
def health_inv (s : Game) : Prop :=
  s.health ≤ MAXHEALTH ∧ -((MAGSIZE * ENEMIES : Nat) : Int) < s.health ∧
    (s.game_over = false → 0 < s.health)

/-- The test that ends the resampling of `xrand` for an enemy at column `x`. -/
def admissible_x (max_x x xrand : Int) : Bool :=
  !(decide (x + xrand ≤ 0) || decide (x + xrand + ENEMYWIDTH ≥ max_x))

/-- The test that ends the resampling of `yrand` for an enemy at row `y`. -/
def admissible_y (max_y y yrand : Int) : Bool :=
  !(decide (y + yrand ≤ 0) || decide (y + yrand ≥ max_y))

/-- A step in `{-1, 0, 1}` that passes `ok` when one of the three does. -/
def pick_step (ok : Int → Bool) : Int :=
  if ok 0 then 0 else if ok 1 then 1 else -1

/-- A value of `rand()` for which `my_random(-1, 1)` is `d`. -/
def raw_for (RAND_MAX d : Int) : Int :=
  (d + 1) * (Int.tdiv RAND_MAX 3 + 1)

/-- Samples that let one pass of `update_enemies` over the roster slots below
`n` return: two per live enemy, each accepted at once. -/
def samples_for (RAND_MAX max_x max_y : Int) (enemies : Roster) : Nat → List Int
  | 0 => []
  | n + 1 =>
    samples_for RAND_MAX max_x max_y enemies n ++
      (if (enemies n).alive then
        [raw_for RAND_MAX (pick_step (admissible_x max_x (enemies n).x)),
         raw_for RAND_MAX (pick_step (admissible_y max_y (enemies n).y))]
       else [])

/-- On a screen of height `H` the slots of the enemy magazine all have
`dir = -1` and the alive ones lie above the lower edge. -/
def enemy_bullets_above_edge (H : Int) (mag : Mag) : Prop :=
  ∀ i : Nat, i < MAGSIZE * ENEMIES →
    (mag i).dir = -1 ∧ ((mag i).alive = true → (mag i).y < H)

/-- The iterations of the loop among the events run on a screen of height `H`. -/
def at_height (H : Int) : Event → Prop
  | .tick _ max_y _ _ => max_y = H
  | .alarm _ _ _ _ => True

/-- The age of player-magazine slot `i` when the write cursor is `c`: 0 for the
slot written last, `MAGSIZE - 1` for the slot the cursor points at. -/
def age (c i : Nat) : Nat := (c + (MAGSIZE - 1) - i) % MAGSIZE

/-- What the loop of `main` maintains about the player magazine, its cursor
`c` and the ammunition count: the cursor is in range, every slot flies
downwards, the count and the alive slots add up to `MAGSIZE`, and the alive
slots are the most recently written ones, an older one never above a newer. -/
def magazine_inv (mag : Mag) (c : Nat) (bullets : Int) : Prop :=
  c < MAGSIZE ∧
  (∀ i : Nat, i < MAGSIZE → (mag i).dir = 1) ∧
  bullets + (alive_count mag MAGSIZE : Nat) = MAGSIZE ∧
  ∀ i1 i2 : Nat, i1 < MAGSIZE → i2 < MAGSIZE → age c i1 ≤ age c i2 →
    (mag i2).alive = true → (mag i1).alive = true ∧ (mag i1).y ≤ (mag i2).y

/-- Every alive slot of the player magazine is on row `q` or below it. -/
def at_or_below (q : Int) (mag : Mag) : Prop :=
  ∀ i : Nat, i < MAGSIZE → (mag i).alive = true → q ≤ (mag i).y

/-- What holds of the player between two iterations of the loop of `main`:
the magazine invariant, every alive player bullet below the plane's row, and
the plane on a row `≥ 0`. -/
def player_inv (s : Game) : Prop :=
  magazine_inv s.friendly_mag s.bullet_index s.bullets ∧
    at_or_below (s.y + 1) s.friendly_mag ∧ 0 ≤ s.y

/-! ## Concrete inputs -/

/-- The value of `RAND_MAX` in glibc. -/
def glibc_RAND_MAX : Int := 2147483647

/-- A raw sample for which `my_random(-1, 1)` is `0` under `glibc_RAND_MAX`. -/
def hold : Int := 1000000000

/-- A roster whose slot 0 is alive at `(10, 20)`, the other slots dormant as
`init_enemies` leaves them. -/
def roster_one : Roster := fun i => if i = 0 then ⟨10, 20, true⟩ else ⟨0, 0, false⟩

/-- An enemy magazine as `init_mag` leaves it on zeroed memory. -/
def enemy_mag_zero : Mag := fun _ => ⟨0, 0, -1, false⟩

/-- A pass over `roster_one` in which enemy 0 draws the step `(0, 0)`. -/
def pass_one : EnemyPass :=
  { enemy_mag := enemy_mag_zero
    g := { enemies := roster_one
           enemy_bullet_index := 0
           num_enemies := 1
           enemy_index := 1
           enemies_destroyed := 0
           alarm_delay := 3 }
    rand := [hold, hold] }

/-- A player magazine with one live bullet at `(15, 20)`; every other cell is
away from all enemies. -/
def mag_single : Mag := fun j => if j = 0 then ⟨15, 20, 1, true⟩ else ⟨0, 30, 1, false⟩

/-- A player magazine after a volley fired from column 2 has reached row 20:
slots 0 to 4 are alive at columns 2, 6, 10, 14, 18; every other cell is away
from all enemies. -/
def mag_volley : Mag :=
  fun j => if j < 5 then ⟨2 + 4 * (j : Int), 20, 1, true⟩ else ⟨0, 30, 1, false⟩

/-- The memory at the player magazine's address before `init_mag`: its cells
lie on row -1, which no enemy ever shares. -/
def mem_off : Mag := fun _ => ⟨0, -1, 0, false⟩

/-- The game as `main` enters its loop on an 80 by 14 screen: the player is at
`(32, 7)` with full health. -/
def game_start : Game :=
  init_game glibc_RAND_MAX 80 14 hold mem_off enemy_mag_zero (fun _ => ⟨0, 0, false⟩)

/-- Three alarms spawn enemies at columns 35, 38 and 42 of row 11; then in each
of four iterations, with no key pressed, all three draw the step `(0, 0)` and
fire at row 7, the player's row. -/
def three_enemies_fire : List Event :=
  [ .alarm 80 14 988972775 hold, .alarm 80 14 1100000000 hold, .alarm 80 14 1200000000 hold,
    .tick 80 14 (-1) [hold, hold, hold, hold, hold, hold],
    .tick 80 14 (-1) [hold, hold, hold, hold, hold, hold],
    .tick 80 14 (-1) [hold, hold, hold, hold, hold, hold],
    .tick 80 14 (-1) [hold, hold, hold, hold, hold, hold] ]

/-- One alarm, then one iteration in which the `'w'` key is read. -/
def spawn_then_tick : List Event :=
  [ .alarm 80 14 988972775 hold, .tick 80 14 119 [hold, hold] ]

/-- A game with the given player magazine, cursor and ammunition; the player
is at `(32, 7)`. -/
def game_with (friendly_mag : Mag) (bullet_index : Nat) (bullets : Int) : Game :=
  { game_start with
    friendly_mag := friendly_mag, bullet_index := bullet_index, bullets := bullets }

/-- A player magazine as `init_mag` leaves it on zeroed memory. -/
def mag_dormant : Mag := fun _ => ⟨0, 0, 1, false⟩

/-- A player magazine whose slots are all alive at `(40, 23)`, the last row of
a screen of height 24. -/
def mag_last_row : Mag := fun _ => ⟨40, 23, 1, true⟩

/-- A raw sample for which `my_random(-1, 1)` is `1` under `glibc_RAND_MAX`. -/
def forth : Int := 2000000000

/-- A game on the 80 by 14 screen of `game_start` (player at `(32, 7)`) in
which roster slot 0 is alive at `(35, 11)`, player slot 0 is alive at
`(37, 10)` and enemy-magazine slot 0 is alive at `(40, 8)`: the next
`update_bullets` brings the one onto the enemy's row and the other onto the
player's row. -/
def game_two_hits : Game :=
  { game_start with
    friendly_mag := fun j => if j = 0 then ⟨37, 10, 1, true⟩ else ⟨0, 30, 1, false⟩
    enemy_mag := fun j => if j = 0 then ⟨40, 8, -1, true⟩ else ⟨0, 0, -1, false⟩
    bullets := 9
    bullet_index := 1
    g := { enemies := fun i => if i = 0 then ⟨35, 11, true⟩ else ⟨0, 0, false⟩
           enemy_bullet_index := 1
           num_enemies := 1
           enemy_index := 1
           enemies_destroyed := 0
           alarm_delay := 3 } }

/-- The number of roster slots below `ENEMIES` that are alive. -/
def alive_enemies (enemies : Roster) : Nat :=
  (List.range ENEMIES).countP (fun i => (enemies i).alive)

/-- An alarm spawns an enemy at `(35, 11)`; in the first iteration the Enter
key fires a volley from `(32, 7)`, whose bullets start on row 8 at columns 32,
36, 40, 44, 48; three iterations later they are on row 11.  The enemy draws
the step `(0, 0)` throughout. -/
def volley_meets_enemy : List Event :=
  [ .alarm 80 14 988972775 hold,
    .tick 80 14 10 [hold, hold],
    .tick 80 14 (-1) [hold, hold],
    .tick 80 14 (-1) [hold, hold],
    .tick 80 14 (-1) [hold, hold] ]

/-- A player magazine none of whose cells is on an enemy's row. -/
def mag_clear : Mag := fun _ => ⟨0, 30, 1, false⟩

/-- The magazine `mag_clear` followed in memory by a cell that holds
`(12, 20)`: index 10 is the first one past the `MAGSIZE` allocated slots. -/
def mag_beyond : Mag := fun j => if j = 10 then ⟨12, 20, 1, true⟩ else mag_clear j

/-- Two iterations on the 80 by 14 screen without enemies: a single shot, then
a volley. -/
def shot_then_volley : List Event :=
  [ .tick 80 14 32 [], .tick 80 14 10 [] ]

theorem collide_body_enemies (fm : Mag) (i j : Nat) (g : Globals) (k : Nat) :
    (collide_body fm i j g).enemies k =
      if k = i ∧ qualifies (g.enemies i) (fm j) then { g.enemies i with alive := false }
      else g.enemies k := by
  unfold collide_body qualifies
  by_cases hy : (g.enemies i).y = (fm j).y
  · by_cases hx : (fm j).x ≥ (g.enemies i).x ∧ (fm j).x ≤ (g.enemies i).x + ENEMYWIDTH
    · by_cases hk : k = i
      · subst hk; simp [hy, hx]
      · simp [hy, hx, hk]
    · simp only [hy, hx, if_true, if_false, and_false]
  · simp [hy]

theorem loop_collide_pos (fm : Mag) (i : Nat) (g : Globals) (n k : Nat) :
    ((loop (collide_body fm i) n g).enemies k).x = (g.enemies k).x ∧
    ((loop (collide_body fm i) n g).enemies k).y = (g.enemies k).y := by
  induction n with
  | zero => simp [loop]
  | succ n ih =>
    simp only [loop, collide_body_enemies]
    split
    · rename_i h; obtain ⟨rfl, -⟩ := h; exact ih
    · exact ih

theorem loop_collide_other (fm : Mag) (i : Nat) (g : Globals) (n k : Nat) (hk : k ≠ i) :
    (loop (collide_body fm i) n g).enemies k = g.enemies k := by
  induction n with
  | zero => simp [loop]
  | succ n ih => simp only [loop, collide_body_enemies, hk, false_and, if_false]; exact ih

theorem loop_collide_dead (fm : Mag) (i : Nat) (g : Globals) (n j : Nat) (hj : j < n)
    (hq : qualifies (g.enemies i) (fm j)) :
    ((loop (collide_body fm i) n g).enemies i).alive = false := by
  induction n with
  | zero => omega
  | succ n ih =>
    simp only [loop, collide_body_enemies, true_and]
    have hpos := loop_collide_pos fm i g n i
    split
    · rfl
    · rename_i hnq
      rcases Nat.lt_succ_iff_lt_or_eq.mp hj with h | h
      · exact ih h
      · subst h
        exact absurd (by unfold qualifies at hq ⊢; rw [hpos.1, hpos.2]; exact hq) hnq


theorem move_enemy_other (R mx my : Int) (i : Nat) (st st1 : EnemyPass)
    (h : move_enemy R mx my i st = some st1) (k : Nat) (hk : k ≠ i) :
    st1.g.enemies k = st.g.enemies k := by
  unfold move_enemy at h
  dsimp only at h
  split at h
  · exact absurd h (by simp)
  · split at h
    · exact absurd h (by simp)
    · split at h <;>
      · simp only [Option.some.injEq] at h
        subst h
        simp [Function.update_noteq hk]

theorem body_other (R mx my : Int) (fm : Mag) (i : Nat) (st st1 : EnemyPass)
    (h : update_enemies_body R mx my fm i st = some st1) (k : Nat) (hk : k ≠ i) :
    st1.g.enemies k = st.g.enemies k := by
  unfold update_enemies_body at h
  generalize MAGSIZE * ENEMIES = n at h
  simp only [Option.map_eq_some'] at h
  obtain ⟨s0, h0, rfl⟩ := h
  rw [loop_collide_other fm i s0.g n k hk]
  split at h0
  · exact move_enemy_other R mx my i st s0 h0 k hk
  · simp only [Option.some.injEq] at h0; subst h0; rfl

theorem body_dead (R mx my : Int) (fm : Mag) (i : Nat) (st st1 : EnemyPass)
    (h : update_enemies_body R mx my fm i st = some st1) (j : Nat)
    (hj : j < MAGSIZE * ENEMIES) (hq : qualifies (st1.g.enemies i) (fm j)) :
    (st1.g.enemies i).alive = false := by
  unfold update_enemies_body at h
  generalize MAGSIZE * ENEMIES = n at h hj
  simp only [Option.map_eq_some'] at h
  obtain ⟨s0, -, rfl⟩ := h
  have hpos := loop_collide_pos fm i s0.g n i
  have hq0 : qualifies (s0.g.enemies i) (fm j) := by
    unfold qualifies at hq ⊢
    rw [← hpos.1, ← hpos.2]
    exact hq
  exact loop_collide_dead fm i s0.g n j hj hq0

theorem loopOpt_succ_some {σ : Type} (body : Nat → σ → Option σ) (n : Nat) (s s1 : σ)
    (h : loopOpt body (n + 1) s = some s1) :
    ∃ s0, loopOpt body n s = some s0 ∧ body n s0 = some s1 := by
  simpa [loopOpt, Option.bind_eq_some] using h

theorem update_enemies_loop_dead (R mx my : Int) (fm : Mag) (n : Nat) (st st1 : EnemyPass)
    (h : loopOpt (update_enemies_body R mx my fm) n st = some st1)
    (i : Nat) (hi : i < n) (j : Nat) (hj : j < MAGSIZE * ENEMIES)
    (hq : qualifies (st1.g.enemies i) (fm j)) :
    (st1.g.enemies i).alive = false := by
  induction n generalizing st1 with
  | zero => omega
  | succ n ih =>
    obtain ⟨s0, h0, hb⟩ := loopOpt_succ_some _ n st st1 h
    rcases Nat.lt_succ_iff_lt_or_eq.mp hi with hlt | heq
    · have hk : i ≠ n := by omega
      have he := body_other R mx my fm n s0 st1 hb i hk
      rw [he] at hq ⊢
      exact ih s0 h0 hlt hq
    · subst heq
      exact body_dead R mx my fm i s0 st1 hb j hj hq

theorem my_random_raw_for (R d : Int) (hR : 0 ≤ R) : my_random R (raw_for R d) (-1) 1 = d := by
  unfold my_random raw_for
  have h3 : (1 : Int) - -1 + 1 = 3 := by norm_num
  rw [h3]
  have hq : Int.tdiv R 3 + 1 ≠ 0 := by
    rw [Int.tdiv_eq_ediv hR (by norm_num)]; omega
  rw [Int.mul_tdiv_cancel _ hq]
  omega

theorem raw_for_range (R d : Int) (hR : 6 ≤ R) (hd : -1 ≤ d ∧ d ≤ 1) :
    0 ≤ raw_for R d ∧ raw_for R d ≤ R := by
  unfold raw_for
  rw [Int.tdiv_eq_ediv (by omega) (by norm_num)]
  have hd3 : d = -1 ∨ d = 0 ∨ d = 1 := by omega
  rcases hd3 with h | h | h <;> subst h <;> constructor <;> omega

theorem pick_step_range (ok : Int → Bool) : -1 ≤ pick_step ok ∧ pick_step ok ≤ 1 := by
  unfold pick_step
  split_ifs <;> constructor <;> norm_num

theorem pick_step_ok (ok : Int → Bool) (h : ∃ d : Int, -1 ≤ d ∧ d ≤ 1 ∧ ok d = true) :
    ok (pick_step ok) = true := by
  obtain ⟨d, h1, h2, hd⟩ := h
  unfold pick_step
  split_ifs with h0 h1'
  · exact h0
  · exact h1'
  · have hd3 : d = -1 ∨ d = 0 ∨ d = 1 := by omega
    rcases hd3 with h | h | h
    · rw [← h]; exact hd
    · rw [h] at hd; exact absurd hd h0
    · rw [h] at hd; exact absurd hd h1'

theorem sample_step_accepts (R : Int) (bad : Int → Bool) (r : Int) (rs : List Int)
    (h : bad (my_random R r (-1) 1) = false) :
    sample_step R bad (r :: rs) = some (my_random R r (-1) 1, rs) := by
  simp [sample_step, h]

theorem move_enemy_returns (R mx my : Int) (hR : 0 ≤ R) (i : Nat) (st : EnemyPass)
    (rest : List Int)
    (hx : ∃ d : Int, -1 ≤ d ∧ d ≤ 1 ∧ admissible_x mx (st.g.enemies i).x d = true)
    (hy : ∃ d : Int, -1 ≤ d ∧ d ≤ 1 ∧ admissible_y my (st.g.enemies i).y d = true)
    (hr : st.rand = raw_for R (pick_step (admissible_x mx (st.g.enemies i).x)) ::
      raw_for R (pick_step (admissible_y my (st.g.enemies i).y)) :: rest) :
    ∃ st1, move_enemy R mx my i st = some st1 ∧ st1.rand = rest := by
  have hxo := pick_step_ok _ hx
  have hyo := pick_step_ok _ hy
  unfold admissible_x at hxo
  unfold admissible_y at hyo
  simp only [Bool.not_eq_true'] at hxo hyo
  unfold move_enemy
  dsimp only
  rw [hr, sample_step_accepts R _ _ _ (by rw [my_random_raw_for R _ hR]; exact hxo)]
  dsimp only
  rw [sample_step_accepts R _ _ _ (by rw [my_random_raw_for R _ hR]; exact hyo)]
  dsimp only
  split_ifs
  · exact ⟨_, rfl, rfl⟩
  · exact ⟨_, rfl, rfl⟩

theorem body_returns (R mx my : Int) (hR : 0 ≤ R) (fm : Mag) (i : Nat) (st : EnemyPass)
    (rest : List Int)
    (hadm : (st.g.enemies i).alive = true →
      (∃ d : Int, -1 ≤ d ∧ d ≤ 1 ∧ admissible_x mx (st.g.enemies i).x d = true) ∧
      (∃ d : Int, -1 ≤ d ∧ d ≤ 1 ∧ admissible_y my (st.g.enemies i).y d = true))
    (hr : st.rand =
      (if (st.g.enemies i).alive then
        [raw_for R (pick_step (admissible_x mx (st.g.enemies i).x)),
         raw_for R (pick_step (admissible_y my (st.g.enemies i).y))]
       else []) ++ rest) :
    ∃ st1, update_enemies_body R mx my fm i st = some st1 ∧ st1.rand = rest := by
  unfold update_enemies_body
  by_cases ha : (st.g.enemies i).alive = true
  · rw [if_pos ha] at hr ⊢
    obtain ⟨st0, h0, hrest⟩ := move_enemy_returns R mx my hR i st rest (hadm ha).1 (hadm ha).2 hr
    rw [h0]
    exact ⟨_, rfl, hrest⟩
  · rw [if_neg ha] at hr ⊢
    exact ⟨_, rfl, by simpa using hr⟩

theorem samples_for_congr (R mx my : Int) (e1 e2 : Roster) (n : Nat)
    (h : ∀ k, k < n → e1 k = e2 k) : samples_for R mx my e1 n = samples_for R mx my e2 n := by
  induction n with
  | zero => rfl
  | succ n ih =>
    simp only [samples_for]
    rw [ih (fun k hk => h k (Nat.lt_succ_of_lt hk)), h n (Nat.lt_succ_self n)]

theorem update_enemies_loop_returns (R mx my : Int) (hR : 0 ≤ R) (fm : Mag) (n : Nat)
    (st : EnemyPass) (rest : List Int)
    (hadm : ∀ i, i < n → (st.g.enemies i).alive = true →
      (∃ d : Int, -1 ≤ d ∧ d ≤ 1 ∧ admissible_x mx (st.g.enemies i).x d = true) ∧
      (∃ d : Int, -1 ≤ d ∧ d ≤ 1 ∧ admissible_y my (st.g.enemies i).y d = true))
    (hr : st.rand = samples_for R mx my st.g.enemies n ++ rest) :
    ∃ st1, loopOpt (update_enemies_body R mx my fm) n st = some st1 ∧ st1.rand = rest ∧
      ∀ k, n ≤ k → st1.g.enemies k = st.g.enemies k := by
  induction n generalizing rest with
  | zero => exact ⟨st, rfl, by simpa [samples_for] using hr, fun _ _ => rfl⟩
  | succ n ih =>
    simp only [samples_for, List.append_assoc] at hr
    obtain ⟨st0, h0, hr0, hk0⟩ := ih _ (fun i hi => hadm i (Nat.lt_succ_of_lt hi)) hr
    have hn : st0.g.enemies n = st.g.enemies n := hk0 n (le_refl n)
    obtain ⟨st1, h1, hr1⟩ := body_returns R mx my hR fm n st0 rest
      (by rw [hn]; exact hadm n (Nat.lt_succ_self n)) (by rw [hn]; exact hr0)
    refine ⟨st1, ?_, hr1, fun k hk => ?_⟩
    · simp only [loopOpt, h0, Option.some_bind, h1]
    · rw [body_other R mx my fm n st0 st1 h1 k (by omega)]
      exact hk0 k (by omega)

theorem samples_for_range (R mx my : Int) (hR : 6 ≤ R) (enemies : Roster) (n : Nat) :
    ∀ r ∈ samples_for R mx my enemies n, 0 ≤ r ∧ r ≤ R := by
  induction n with
  | zero => intro r hr; simp [samples_for] at hr
  | succ n ih =>
    intro r hr
    simp only [samples_for, List.mem_append] at hr
    rcases hr with hr | hr
    · exact ih r hr
    · split_ifs at hr
      · simp only [List.mem_cons, List.mem_singleton, List.not_mem_nil, or_false] at hr
        rcases hr with hr | hr <;> rw [hr] <;>
          exact raw_for_range R _ hR (pick_step_range _)
      · simp at hr

/-- C1: whenever `update_enemies` returns, a roster slot that shares its row
with a player-magazine bullet (a slot below `MAGSIZE`) whose column lies in
`[enemy.x, enemy.x + ENEMYWIDTH]`, positions being those the scan sees (after
the enemy's step of this call), is not alive.  The call does return for
suitable samples: when every live enemy has, in each axis, a step in
`{-1, 0, 1}` that the resampling loop accepts, there are samples in
`[0, RAND_MAX]` with which it returns. -/
theorem update_enemies_destroys_hit_enemy (RAND_MAX max_x max_y : Int) (friendly_mag : Mag)
    (st : EnemyPass) :
    (∀ st1 : EnemyPass, update_enemies RAND_MAX max_x max_y friendly_mag st = some st1 →
      ∀ i : Nat, i < ENEMIES → ∀ j : Nat, j < MAGSIZE →
        (friendly_mag j).y = (st1.g.enemies i).y →
        (st1.g.enemies i).x ≤ (friendly_mag j).x →
        (friendly_mag j).x ≤ (st1.g.enemies i).x + ENEMYWIDTH →
        (st1.g.enemies i).alive = false) ∧
    (6 ≤ RAND_MAX →
      (∀ i : Nat, i < ENEMIES → (st.g.enemies i).alive = true →
        (∃ d : Int, -1 ≤ d ∧ d ≤ 1 ∧ admissible_x max_x (st.g.enemies i).x d = true) ∧
        (∃ d : Int, -1 ≤ d ∧ d ≤ 1 ∧ admissible_y max_y (st.g.enemies i).y d = true)) →
      ∃ rand : List Int, (∀ r ∈ rand, 0 ≤ r ∧ r ≤ RAND_MAX) ∧
        ∃ st1 : EnemyPass,
          update_enemies RAND_MAX max_x max_y friendly_mag { st with rand := rand } =
            some st1) := by
  constructor
  · intro st1 h i hi j hj hy hx1 hx2
    exact update_enemies_loop_dead RAND_MAX max_x max_y friendly_mag ENEMIES st st1 h i hi j
      (by simp only [MAGSIZE, ENEMIES] at hj ⊢; omega) ⟨hy.symm, hx1, hx2⟩
  · intro hR hadm
    refine ⟨samples_for RAND_MAX max_x max_y st.g.enemies ENEMIES,
      samples_for_range RAND_MAX max_x max_y hR st.g.enemies ENEMIES, ?_⟩
    obtain ⟨st1, h1, -, -⟩ := update_enemies_loop_returns RAND_MAX max_x max_y (by omega)
      friendly_mag ENEMIES
      { st with rand := samples_for RAND_MAX max_x max_y st.g.enemies ENEMIES } [] hadm
      (by simp)
    exact ⟨st1, h1⟩

theorem update_enemies_destroys_hit_enemy_witness :
    (update_enemies glibc_RAND_MAX 80 24 mag_single pass_one).map
      (fun s => (s.g.enemies 0).alive) = some false := by
  have hsome : (update_enemies glibc_RAND_MAX 80 24 mag_single pass_one).isSome = true := by
    decide
  obtain ⟨st1, h⟩ := Option.isSome_iff_exists.mp hsome
  have hpos : (update_enemies glibc_RAND_MAX 80 24 mag_single pass_one).map
      (fun s => ((s.g.enemies 0).x, (s.g.enemies 0).y)) = some (10, 20) := by decide
  rw [h] at hpos ⊢
  simp only [Option.map_some', Option.some.injEq, Prod.mk.injEq] at hpos ⊢
  exact (update_enemies_destroys_hit_enemy glibc_RAND_MAX 80 24 mag_single pass_one).1 st1 h
    0 (by decide) 0 (by decide) (by rw [hpos.2]; rfl) (by rw [hpos.1]; decide)
    (by rw [hpos.1]; decide)

/-- C2 (the code departs from it): with two bullets of one volley inside the
span of the single enemy, one call of `update_enemies` adds 2 to
`enemies_destroyed` and takes 2 from `num_enemies` (from 0 to 2 and from 1 to
-1), although only one roster slot has a qualifying bullet. -/
theorem update_enemies_counts_every_bullet :
    (update_enemies glibc_RAND_MAX 80 24 mag_volley pass_one).map
      (fun s => (s.g.enemies_destroyed, s.g.num_enemies,
        qualifying_enemies mag_volley s.g.enemies)) = some (2, -1, 1) := by
  decide

/-! ## Player health -/

theorem loop_update_health (enemy_mag : Mag) (x y : Int) (n : Nat) (health : Int) :
    loop (update_health_body enemy_mag x y) n health =
      health - ((List.range n).countP (fun i => strikes x y (enemy_mag i)) : Nat) := by
  induction n with
  | zero => simp [loop]
  | succ n ih =>
    rw [loop, ih, List.range_succ, List.countP_append]
    unfold update_health_body strikes
    by_cases hy : (enemy_mag n).y = y
    · by_cases hx : (enemy_mag n).x ≥ x ∧ (enemy_mag n).x ≤ x + PLANEWIDTH
      · simp [hy, hx, List.countP_cons]; omega
      · have hx2 : ¬ (x ≤ (enemy_mag n).x ∧ (enemy_mag n).x ≤ x + PLANEWIDTH) := hx
        simp [hy, hx, hx2, List.countP_cons]
    · simp [hy, List.countP_cons]

/-- C3: `update_health` returns the health minus the number of enemy-magazine
slots below `MAGSIZE * ENEMIES` on the player's row with a column in
`[x, x + PLANEWIDTH]`; every such slot counts, so hits of one tick stack. -/
theorem update_health_subtracts_hits (enemy_mag : Mag) (health x y : Int) :
    update_health enemy_mag health x y = health - (hits enemy_mag x y : Nat) := by
  unfold update_health hits
  exact loop_update_health enemy_mag x y (MAGSIZE * ENEMIES) health

theorem update_health_le (enemy_mag : Mag) (health x y : Int) :
    update_health enemy_mag health x y ≤ health := by
  unfold update_health
  rw [loop_update_health]
  omega

theorem update_health_ge (enemy_mag : Mag) (health x y : Int) :
    health - (MAGSIZE * ENEMIES : Nat) ≤ update_health enemy_mag health x y := by
  unfold update_health
  rw [loop_update_health]
  have h := List.countP_le_length (fun i => strikes x y (enemy_mag i))
    (l := List.range (MAGSIZE * ENEMIES))
  rw [List.length_range] at h
  omega

/-! ## The game loop -/

theorem handle_key_health (max_x max_y key : Int) (s : Game) :
    (handle_key max_x max_y key s).health = s.health ∧
    ((handle_key max_x max_y key s).game_over = false → s.game_over = false) := by
  unfold handle_key
  split_ifs <;> simp

theorem update_phase_health (R mx my : Int) (rand : List Int) (s s1 : Game)
    (h : update_phase R mx my rand s = some s1) :
    s1.health ≤ s.health ∧ s.health - (MAGSIZE * ENEMIES : Nat) ≤ s1.health ∧
      (s1.game_over = false → 0 < s1.health) := by
  unfold update_phase at h
  dsimp only at h
  split at h
  · exact absurd h (by simp)
  · rename_i st hst
    simp only [Option.some.injEq] at h
    subst h
    refine ⟨update_health_le _ _ _ _, update_health_ge _ _ _ _, ?_⟩
    dsimp only
    split_ifs with hle
    · simp
    · intro _; omega

theorem step_health (R : Int) (s s1 : Game) (e : Event) (h : step R s e = some s1) :
    s1.health ≤ s.health ∧ (health_inv s → health_inv s1) := by
  cases e with
  | tick mx my key rand =>
    unfold step at h
    dsimp only at h
    split_ifs at h with hg
    · simp only [Option.some.injEq] at h; subst h; exact ⟨le_refl _, id⟩
    · unfold tick at h
      simp only [Option.map_eq_some'] at h
      obtain ⟨s0, h0, rfl⟩ := h
      have hk := handle_key_health mx my key s0
      have hu := update_phase_health R mx my rand s s0 h0
      rw [hk.1]
      refine ⟨hu.1, ?_⟩
      rintro ⟨h1, h2, h3⟩
      have hpos : 0 < s.health := h3 (by simpa using hg)
      refine ⟨?_, ?_, ?_⟩
      · rw [hk.1]; omega
      · rw [hk.1]; omega
      · intro hgo; rw [hk.1]; exact hu.2.2 (hk.2 hgo)
  | alarm mx my r1 r2 =>
    unfold step at h
    dsimp only at h
    split_ifs at h with hg
    · simp only [Option.some.injEq] at h; subst h; exact ⟨le_refl _, id⟩
    · simp only [Option.some.injEq] at h; subst h; exact ⟨le_refl _, id⟩

theorem run_health_inv (R : Int) (evs : List Event) (s0 s : Game)
    (h : run R s0 evs = some s) (h0 : health_inv s0) : health_inv s := by
  induction evs generalizing s0 with
  | nil => simp only [run, Option.some.injEq] at h; subst h; exact h0
  | cons e es ih =>
    simp only [run, Option.bind_eq_some] at h
    obtain ⟨s1, h1, h2⟩ := h
    exact ih s1 h2 ((step_health R s0 s1 e h1).2 h0)

theorem init_game_health_inv (R mx my r : Int) (mf me : Mag) (mr : Roster) :
    health_inv (init_game R mx my r mf me mr) := by
  unfold health_inv init_game
  dsimp only
  exact ⟨by decide, by decide, fun _ => by decide⟩

/-- C4 as stated fails: from the initial state on an 80 by 14 screen, three
alarms and four iterations in which three enemies fire at the player's row
lead to `health = -2`, below the claimed lower bound 0. -/
theorem health_reaches_negative :
    (run glibc_RAND_MAX game_start three_enemies_fire).map (fun s => s.health) = some (-2) := by
  decide

/-- C4, amended: in every state reachable from the initial state,
`-(MAGSIZE * ENEMIES) < health ≤ MAXHEALTH`, `health` is positive as long as
`game_over` is not set, and no further event increases `health`. -/
theorem health_bounds_reachable (RAND_MAX max_x max_y r_delay : Int) (mem_f mem_e : Mag)
    (mem_r : Roster) (evs : List Event) (s : Game)
    (h : run RAND_MAX (init_game RAND_MAX max_x max_y r_delay mem_f mem_e mem_r) evs = some s) :
    (-((MAGSIZE * ENEMIES : Nat) : Int) < s.health ∧ s.health ≤ MAXHEALTH) ∧
    (s.game_over = false → 0 < s.health) ∧
    ∀ (e : Event) (s1 : Game), step RAND_MAX s e = some s1 → s1.health ≤ s.health := by
  have hinv := run_health_inv RAND_MAX evs _ s h
    (init_game_health_inv RAND_MAX max_x max_y r_delay mem_f mem_e mem_r)
  exact ⟨⟨hinv.2.1, hinv.1⟩, hinv.2.2, fun e s1 he => (step_health RAND_MAX s s1 e he).1⟩

theorem health_bounds_reachable_witness :
    (run glibc_RAND_MAX game_start spawn_then_tick).map
      (fun s => decide (-80 < s.health ∧ s.health ≤ 10)) = some true := by
  have hsome : (run glibc_RAND_MAX game_start spawn_then_tick).isSome = true := by decide
  obtain ⟨s, h⟩ := Option.isSome_iff_exists.mp hsome
  have hb := (health_bounds_reachable glibc_RAND_MAX 80 14 hold mem_off enemy_mag_zero
    (fun _ => ⟨0, 0, false⟩) spawn_then_tick s h).1
  rw [h]
  simp only [Option.map_some', Option.some.injEq, decide_eq_true_eq]
  simpa using hb

/-! ## Key handling -/

theorem handle_key_space (max_x max_y : Int) (s : Game) :
    handle_key max_x max_y 32 s =
      if s.bullets ≠ 0 then
        { s with
          bullets := s.bullets - 1
          friendly_mag :=
            (fire MAGSIZE (s.friendly_mag, s.bullet_index) (s.x + Int.tdiv PLANEWIDTH 2)
              (s.y + 1)).1
          bullet_index :=
            (fire MAGSIZE (s.friendly_mag, s.bullet_index) (s.x + Int.tdiv PLANEWIDTH 2)
              (s.y + 1)).2 }
      else s := rfl

theorem handle_key_enter (max_x max_y : Int) (s : Game) :
    handle_key max_x max_y 10 s =
      if s.bullets ≥ SHOTGUN then
        { s with
          bullets := s.bullets - SHOTGUN
          friendly_mag := (loop (volley_body s.x s.y) SHOTGUN (s.friendly_mag, s.bullet_index)).1
          bullet_index := (loop (volley_body s.x s.y) SHOTGUN (s.friendly_mag, s.bullet_index)).2 }
      else s := rfl

theorem volley_loop_cursor (x y : Int) (mag : Mag) (c n : Nat) (hc : c < MAGSIZE) :
    (loop (volley_body x y) n (mag, c)).2 = (c + n) % MAGSIZE := by
  induction n with
  | zero => simp only [loop, Nat.add_zero]; exact (Nat.mod_eq_of_lt hc).symm
  | succ n ih =>
    simp only [loop, volley_body, fire, ih, MAGSIZE]
    omega

theorem volley_loop_other (x y : Int) (mag : Mag) (c n : Nat) (hc : c < MAGSIZE) (k : Nat)
    (hk : ∀ i, i < n → k ≠ (c + i) % MAGSIZE) :
    (loop (volley_body x y) n (mag, c)).1 k = mag k := by
  induction n with
  | zero => rfl
  | succ n ih =>
    simp only [loop, volley_body, fire, volley_loop_cursor x y mag c n hc]
    rw [Function.update_noteq (hk n (Nat.lt_succ_self n))]
    exact ih (fun i hi => hk i (Nat.lt_succ_of_lt hi))

theorem volley_loop_written (x y : Int) (mag : Mag) (c n : Nat) (hc : c < MAGSIZE)
    (hn : n ≤ MAGSIZE) (i : Nat) (hi : i < n) :
    (loop (volley_body x y) n (mag, c)).1 ((c + i) % MAGSIZE) =
      { x := x + 4 * (i : Int), y := y + 1, dir := (mag ((c + i) % MAGSIZE)).dir,
        alive := true } := by
  induction n with
  | zero => omega
  | succ n ih =>
    simp only [loop, volley_body, fire, volley_loop_cursor x y mag c n hc]
    rcases Nat.lt_succ_iff_lt_or_eq.mp hi with hlt | heq
    · have hne : (c + i) % MAGSIZE ≠ (c + n) % MAGSIZE := by
        simp only [MAGSIZE] at hn ⊢; omega
      rw [Function.update_noteq hne]
      exact ih (by omega) hlt
    · subst heq
      rw [Function.update_same]
      have hother := volley_loop_other x y mag c i hc ((c + i) % MAGSIZE)
        (fun i1 hi1 => by simp only [MAGSIZE] at hn ⊢; omega)
      simp only [shoot_bullet, hother, bullet.mk.injEq, and_true, true_and]
      have h4 : Int.tdiv ((i : Int) * PLANEWIDTH) 4 = 4 * (i : Int) := by
        have : (i : Int) * PLANEWIDTH = 4 * (4 * (i : Int)) := by
          simp only [PLANEWIDTH]; ring
        rw [this, Int.mul_tdiv_cancel_left _ (by decide)]
      rw [h4]

/-- C5: with fewer than `SHOTGUN` bullets left, the Enter key (code 10) leaves
the ammunition count, the player cursor and every slot of the player magazine
as they were. -/
theorem volley_skipped_when_short (max_x max_y : Int) (s : Game)
    (h : s.bullets < SHOTGUN) :
    (handle_key max_x max_y 10 s).bullets = s.bullets ∧
    (handle_key max_x max_y 10 s).bullet_index = s.bullet_index ∧
    ∀ i : Nat, (handle_key max_x max_y 10 s).friendly_mag i = s.friendly_mag i := by
  have hs : handle_key max_x max_y 10 s = s := by
    rw [handle_key_enter, if_neg (not_le.mpr h)]
  rw [hs]
  exact ⟨rfl, rfl, fun _ => rfl⟩

theorem volley_skipped_when_short_witness :
    (handle_key 80 14 10 (game_with mag_dormant 3 4)).bullets = 4 ∧
    (handle_key 80 14 10 (game_with mag_dormant 3 4)).bullet_index = 3 ∧
    ∀ i : Nat, (handle_key 80 14 10 (game_with mag_dormant 3 4)).friendly_mag i =
      mag_dormant i :=
  volley_skipped_when_short 80 14 (game_with mag_dormant 3 4) (by decide)

/-- C6: from an all-dormant player magazine with `bullets = MAGSIZE` and any
cursor `c < MAGSIZE`, two Enter keys in a row leave `bullets = 0` and all 10
slots alive.  The first call makes the 5 distinct slots `(c + i) % MAGSIZE`
alive at `(x + 4 * i, y + 1)` and touches no other slot, the second does the
same for the slots `(c + SHOTGUN + i) % MAGSIZE`, and the two sets of slots
are disjoint. -/
theorem volley_twice_empties_magazine (max_x max_y : Int) (s s1 s2 : Game)
    (hc : s.bullet_index < MAGSIZE)
    (hd : ∀ k : Nat, k < MAGSIZE → (s.friendly_mag k).alive = false)
    (hb : s.bullets = MAGSIZE)
    (h1 : s1 = handle_key max_x max_y 10 s) (h2 : s2 = handle_key max_x max_y 10 s1) :
    (s1.bullets = 5 ∧ s2.bullets = 0) ∧
    (alive_count s1.friendly_mag MAGSIZE = 5 ∧ alive_count s2.friendly_mag MAGSIZE = 10) ∧
    (∀ i : Nat, i < SHOTGUN →
      s1.friendly_mag ((s.bullet_index + i) % MAGSIZE) =
        { x := s.x + 4 * (i : Int), y := s.y + 1,
          dir := (s.friendly_mag ((s.bullet_index + i) % MAGSIZE)).dir, alive := true }) ∧
    (∀ k : Nat, (∀ i : Nat, i < SHOTGUN → k ≠ (s.bullet_index + i) % MAGSIZE) →
      s1.friendly_mag k = s.friendly_mag k) ∧
    (∀ i : Nat, i < SHOTGUN →
      s2.friendly_mag ((s.bullet_index + SHOTGUN + i) % MAGSIZE) =
        { x := s.x + 4 * (i : Int), y := s.y + 1,
          dir := (s.friendly_mag ((s.bullet_index + SHOTGUN + i) % MAGSIZE)).dir,
          alive := true }) ∧
    (∀ k : Nat, (∀ i : Nat, i < SHOTGUN → k ≠ (s.bullet_index + SHOTGUN + i) % MAGSIZE) →
      s2.friendly_mag k = s1.friendly_mag k) ∧
    (∀ i j : Nat, i < SHOTGUN → j < SHOTGUN →
      ((s.bullet_index + i) % MAGSIZE ≠ (s.bullet_index + SHOTGUN + j) % MAGSIZE) ∧
      (i ≠ j → (s.bullet_index + i) % MAGSIZE ≠ (s.bullet_index + j) % MAGSIZE)) := by
  have e1 : s1 = { s with
      bullets := s.bullets - SHOTGUN
      friendly_mag := (loop (volley_body s.x s.y) SHOTGUN (s.friendly_mag, s.bullet_index)).1
      bullet_index := (loop (volley_body s.x s.y) SHOTGUN (s.friendly_mag, s.bullet_index)).2 } := by
    rw [h1, handle_key_enter, if_pos (by rw [hb]; decide)]
  have hb1 : s1.bullets = 5 := by rw [e1, hb]; rfl
  have hx1 : s1.x = s.x := by rw [e1]
  have hy1 : s1.y = s.y := by rw [e1]
  have hc1 : s1.bullet_index = (s.bullet_index + SHOTGUN) % MAGSIZE := by
    rw [e1]; exact volley_loop_cursor s.x s.y s.friendly_mag s.bullet_index SHOTGUN hc
  have hc1lt : s1.bullet_index < MAGSIZE := by rw [hc1]; exact Nat.mod_lt _ (by decide)
  have hm1 : s1.friendly_mag =
      (loop (volley_body s.x s.y) SHOTGUN (s.friendly_mag, s.bullet_index)).1 := by rw [e1]
  have e2 : s2 = { s1 with
      bullets := s1.bullets - SHOTGUN
      friendly_mag := (loop (volley_body s.x s.y) SHOTGUN (s1.friendly_mag, s1.bullet_index)).1
      bullet_index := (loop (volley_body s.x s.y) SHOTGUN (s1.friendly_mag, s1.bullet_index)).2 } := by
    rw [h2, handle_key_enter, if_pos (by rw [hb1]; decide), hx1, hy1]
  have hm2 : s2.friendly_mag =
      (loop (volley_body s.x s.y) SHOTGUN (s1.friendly_mag, s1.bullet_index)).1 := by rw [e2]
  have hidx : ∀ i : Nat, (s1.bullet_index + i) % MAGSIZE =
      (s.bullet_index + SHOTGUN + i) % MAGSIZE := by
    intro i; rw [hc1]; simp only [MAGSIZE, SHOTGUN]; omega
  -- the slots written by the first and by the second call
  have w1 : ∀ i : Nat, i < SHOTGUN → s1.friendly_mag ((s.bullet_index + i) % MAGSIZE) =
      { x := s.x + 4 * (i : Int), y := s.y + 1,
        dir := (s.friendly_mag ((s.bullet_index + i) % MAGSIZE)).dir, alive := true } := by
    intro i hi
    rw [hm1]
    exact volley_loop_written s.x s.y s.friendly_mag s.bullet_index SHOTGUN hc (by decide) i hi
  have o1 : ∀ k : Nat, (∀ i : Nat, i < SHOTGUN → k ≠ (s.bullet_index + i) % MAGSIZE) →
      s1.friendly_mag k = s.friendly_mag k := by
    intro k hk
    rw [hm1]
    exact volley_loop_other s.x s.y s.friendly_mag s.bullet_index SHOTGUN hc k hk
  have o2 : ∀ k : Nat, (∀ i : Nat, i < SHOTGUN → k ≠ (s.bullet_index + SHOTGUN + i) % MAGSIZE) →
      s2.friendly_mag k = s1.friendly_mag k := by
    intro k hk
    rw [hm2]
    exact volley_loop_other s.x s.y s1.friendly_mag s1.bullet_index SHOTGUN hc1lt k
      (fun i hi => by rw [hidx]; exact hk i hi)
  have w2 : ∀ i : Nat, i < SHOTGUN →
      s2.friendly_mag ((s.bullet_index + SHOTGUN + i) % MAGSIZE) =
        { x := s.x + 4 * (i : Int), y := s.y + 1,
          dir := (s.friendly_mag ((s.bullet_index + SHOTGUN + i) % MAGSIZE)).dir,
          alive := true } := by
    intro i hi
    have hw := volley_loop_written s.x s.y s1.friendly_mag s1.bullet_index SHOTGUN hc1lt
      (by decide) i hi
    rw [← hm2, hidx] at hw
    rw [hw, o1 _ (fun j hj => by simp only [MAGSIZE, SHOTGUN] at hi hj hc ⊢; omega)]
  -- which slots are alive after each call
  have a1 : ∀ k : Nat, k < MAGSIZE →
      (s1.friendly_mag k).alive = decide ((k + MAGSIZE - s.bullet_index) % MAGSIZE < SHOTGUN) := by
    intro k hk
    by_cases hlt : (k + MAGSIZE - s.bullet_index) % MAGSIZE < SHOTGUN
    · have hkeq : k = (s.bullet_index + (k + MAGSIZE - s.bullet_index) % MAGSIZE) % MAGSIZE := by
        simp only [MAGSIZE, SHOTGUN] at hk hc hlt ⊢; omega
      rw [decide_eq_true hlt, hkeq, w1 _ hlt]
    · rw [decide_eq_false hlt, o1 k (fun i hi => by
        simp only [MAGSIZE, SHOTGUN] at hk hc hlt hi ⊢; omega)]
      exact hd k hk
  have a2 : ∀ k : Nat, k < MAGSIZE → (s2.friendly_mag k).alive = true := by
    intro k hk
    by_cases hlt : (k + MAGSIZE - s.bullet_index) % MAGSIZE < SHOTGUN
    · rw [o2 k (fun i hi => by simp only [MAGSIZE, SHOTGUN] at hk hc hlt hi ⊢; omega),
        a1 k hk, decide_eq_true hlt]
    · have hkeq : k = (s.bullet_index + SHOTGUN +
          ((k + MAGSIZE - s.bullet_index) % MAGSIZE - SHOTGUN)) % MAGSIZE := by
        simp only [MAGSIZE, SHOTGUN] at hk hc hlt ⊢; omega
      rw [hkeq, w2 _ (by simp only [MAGSIZE, SHOTGUN] at hk hc hlt ⊢; omega)]
  refine ⟨⟨hb1, by rw [e2, hb1]; rfl⟩, ⟨?_, ?_⟩, w1, o1, w2, o2, ?_⟩
  · unfold alive_count
    rw [List.countP_congr (fun k hk => by rw [a1 k (List.mem_range.mp hk)])]
    have hcs := hc
    simp only [MAGSIZE] at hcs
    generalize s.bullet_index = c at hcs
    interval_cases c <;> decide
  · unfold alive_count
    rw [List.countP_congr (fun k hk => by rw [a2 k (List.mem_range.mp hk)]),
      List.countP_true, List.length_range]
  · intro i j hi hj
    simp only [MAGSIZE, SHOTGUN] at hi hj hc ⊢
    omega

theorem volley_twice_empties_magazine_witness :
    (handle_key 80 14 10 (handle_key 80 14 10 (game_with mag_dormant 7 10))).bullets = 0 ∧
    alive_count
      (handle_key 80 14 10 (handle_key 80 14 10 (game_with mag_dormant 7 10))).friendly_mag
      MAGSIZE = 10 :=
  have h := volley_twice_empties_magazine 80 14 (game_with mag_dormant 7 10)
    (handle_key 80 14 10 (game_with mag_dormant 7 10))
    (handle_key 80 14 10 (handle_key 80 14 10 (game_with mag_dormant 7 10)))
    (by decide) (fun _ _ => rfl) (by decide) rfl rfl
  ⟨h.1.2, h.2.1.2⟩

/-- C7: the space key (code 32) with `bullets > 0` takes one bullet from the
count, makes the slot at the cursor alive at `(x + 8, y + 1)` (8 is
`PLANEWIDTH / 2`), changes no other slot and moves the cursor to
`(bullet_index + 1) % MAGSIZE`; with `bullets = 0` it changes none of them. -/
theorem single_shot_effect (max_x max_y : Int) (s : Game) :
    (0 < s.bullets →
      (handle_key max_x max_y 32 s).bullets = s.bullets - 1 ∧
      (handle_key max_x max_y 32 s).friendly_mag s.bullet_index =
        { x := s.x + 8, y := s.y + 1, dir := (s.friendly_mag s.bullet_index).dir,
          alive := true } ∧
      (∀ j : Nat, j ≠ s.bullet_index →
        (handle_key max_x max_y 32 s).friendly_mag j = s.friendly_mag j) ∧
      (handle_key max_x max_y 32 s).bullet_index = (s.bullet_index + 1) % MAGSIZE) ∧
    (s.bullets = 0 →
      (handle_key max_x max_y 32 s).bullets = s.bullets ∧
      (handle_key max_x max_y 32 s).bullet_index = s.bullet_index ∧
      (handle_key max_x max_y 32 s).friendly_mag = s.friendly_mag) := by
  rw [handle_key_space]
  constructor
  · intro hpos
    have hne : s.bullets ≠ 0 := by omega
    rw [if_pos hne]
    refine ⟨rfl, ?_, ?_, rfl⟩
    · simp only [fire, shoot_bullet, Function.update_same]
      rfl
    · intro j hj
      simp only [fire, Function.update_noteq hj]
  · intro h0
    rw [if_neg (by simpa using h0)]
    exact ⟨rfl, rfl, rfl⟩

theorem single_shot_effect_witness :
    (handle_key 80 14 32 (game_with mag_dormant 9 1)).bullets = 0 ∧
    (handle_key 80 14 32 (game_with mag_dormant 9 1)).friendly_mag 9 = ⟨40, 8, 1, true⟩ ∧
    (handle_key 80 14 32 (game_with mag_dormant 9 1)).bullet_index = 0 ∧
    (handle_key 80 14 32 (game_with mag_dormant 9 0)).bullet_index = 9 := by
  have h1 := (single_shot_effect 80 14 (game_with mag_dormant 9 1)).1 (by decide)
  have h0 := (single_shot_effect 80 14 (game_with mag_dormant 9 0)).2 (by decide)
  exact ⟨h1.1, h1.2.1, h1.2.2.2, h0.2.1⟩

/-! ## Write cursors -/

theorem loop_preserves {σ : Type} (P : σ → Prop) (body : Nat → σ → σ)
    (hbody : ∀ i s, P s → P (body i s)) (n : Nat) (s : σ) (hs : P s) :
    P (loop body n s) := by
  induction n with
  | zero => exact hs
  | succ n ih => exact hbody n _ ih

theorem loopOpt_preserves {σ : Type} (P : σ → Prop) (body : Nat → σ → Option σ)
    (hbody : ∀ i s s1, body i s = some s1 → P s → P s1) (n : Nat) (s s1 : σ)
    (h : loopOpt body n s = some s1) (hs : P s) : P s1 := by
  induction n generalizing s1 with
  | zero => simp only [loopOpt, Option.some.injEq] at h; subst h; exact hs
  | succ n ih =>
    obtain ⟨s0, h0, hb⟩ := loopOpt_succ_some body n s s1 h
    exact hbody n s0 s1 hb (ih s0 h0)

theorem collide_body_cursors (fm : Mag) (i j : Nat) (g : Globals) :
    (collide_body fm i j g).enemy_bullet_index = g.enemy_bullet_index ∧
    (collide_body fm i j g).enemy_index = g.enemy_index := by
  unfold collide_body
  split_ifs <;> exact ⟨rfl, rfl⟩

theorem loop_collide_cursors (fm : Mag) (i n : Nat) (g : Globals) :
    (loop (collide_body fm i) n g).enemy_bullet_index = g.enemy_bullet_index ∧
    (loop (collide_body fm i) n g).enemy_index = g.enemy_index :=
  loop_preserves
    (fun g1 => g1.enemy_bullet_index = g.enemy_bullet_index ∧ g1.enemy_index = g.enemy_index)
    (collide_body fm i)
    (fun j g1 h => by
      have hc := collide_body_cursors fm i j g1
      exact ⟨hc.1.trans h.1, hc.2.trans h.2⟩)
    n g ⟨rfl, rfl⟩

theorem move_enemy_cursors (R mx my : Int) (i : Nat) (st st1 : EnemyPass)
    (h : move_enemy R mx my i st = some st1) :
    (st1.g.enemy_bullet_index = st.g.enemy_bullet_index ∨
      st1.g.enemy_bullet_index = (st.g.enemy_bullet_index + 1) % (ENEMIES * MAGSIZE)) ∧
    st1.g.enemy_index = st.g.enemy_index := by
  unfold move_enemy at h
  dsimp only at h
  split at h
  · exact absurd h (by simp)
  · split at h
    · exact absurd h (by simp)
    · split at h <;>
      · simp only [Option.some.injEq] at h
        subst h
        simp [fire]

theorem body_cursors (R mx my : Int) (fm : Mag) (i : Nat) (st st1 : EnemyPass)
    (h : update_enemies_body R mx my fm i st = some st1) :
    (st.g.enemy_bullet_index < MAGSIZE * ENEMIES →
      st1.g.enemy_bullet_index < MAGSIZE * ENEMIES) ∧
    st1.g.enemy_index = st.g.enemy_index := by
  unfold update_enemies_body at h
  generalize hn : MAGSIZE * ENEMIES = n at h
  simp only [Option.map_eq_some'] at h
  obtain ⟨s0, h0, rfl⟩ := h
  have hl := loop_collide_cursors fm i n s0.g
  dsimp only
  rw [hl.1, hl.2]
  split at h0
  · have hm := move_enemy_cursors R mx my i st s0 h0
    refine ⟨fun hlt => ?_, hm.2⟩
    rcases hm.1 with he | he
    · rw [he]; exact hlt
    · rw [he, ← hn]; exact Nat.mod_lt _ (by norm_num)
  · simp only [Option.some.injEq] at h0; subst h0; exact ⟨id, rfl⟩

theorem update_enemies_cursors (R mx my : Int) (fm : Mag) (st st1 : EnemyPass)
    (h : update_enemies R mx my fm st = some st1) :
    (st.g.enemy_bullet_index < MAGSIZE * ENEMIES →
      st1.g.enemy_bullet_index < MAGSIZE * ENEMIES) ∧
    st1.g.enemy_index = st.g.enemy_index :=
  loopOpt_preserves
    (fun s => (st.g.enemy_bullet_index < MAGSIZE * ENEMIES →
      s.g.enemy_bullet_index < MAGSIZE * ENEMIES) ∧ s.g.enemy_index = st.g.enemy_index)
    (update_enemies_body R mx my fm)
    (fun i s s1 hb hs => by
      have hc := body_cursors R mx my fm i s s1 hb
      exact ⟨fun hlt => hc.1 (hs.1 hlt), hc.2.trans hs.2⟩)
    ENEMIES st st1 h ⟨id, rfl⟩

theorem handle_key_cursor (max_x max_y key : Int) (s : Game) (hc : s.bullet_index < MAGSIZE) :
    (handle_key max_x max_y key s).bullet_index < MAGSIZE ∧
    (handle_key max_x max_y key s).g = s.g := by
  unfold handle_key
  split_ifs
  all_goals first
    | exact ⟨hc, rfl⟩
    | exact ⟨Nat.mod_lt _ (by norm_num), rfl⟩

theorem alarm_handler_cursors (R mx my r1 r2 : Int) (g : Globals) :
    (g.enemy_index < ENEMIES → (alarm_handler R mx my r1 r2 g).enemy_index < ENEMIES) ∧
    (alarm_handler R mx my r1 r2 g).enemy_bullet_index = g.enemy_bullet_index := by
  unfold alarm_handler
  dsimp only
  split_ifs
  · exact ⟨fun _ => Nat.mod_lt _ (by norm_num), rfl⟩
  · exact ⟨id, rfl⟩

theorem update_phase_cursors (R mx my : Int) (rand : List Int) (s s1 : Game)
    (h : update_phase R mx my rand s = some s1) (hc : cursors_in_range s) :
    cursors_in_range s1 := by
  unfold update_phase at h
  dsimp only at h
  split at h
  · exact absurd h (by simp)
  · rename_i st hst
    simp only [Option.some.injEq] at h
    subst h
    have hu := update_enemies_cursors R mx my _ _ st hst
    exact ⟨hc.1, hu.1 hc.2.1, by rw [hu.2]; exact hc.2.2⟩

theorem step_cursors (R : Int) (s s1 : Game) (e : Event) (h : step R s e = some s1)
    (hc : cursors_in_range s) : cursors_in_range s1 := by
  cases e with
  | tick mx my key rand =>
    unfold step at h
    dsimp only at h
    split_ifs at h with hg
    · simp only [Option.some.injEq] at h; subst h; exact hc
    · unfold tick at h
      simp only [Option.map_eq_some'] at h
      obtain ⟨s0, h0, rfl⟩ := h
      have h1 := update_phase_cursors R mx my rand s s0 h0 hc
      have hk := handle_key_cursor mx my key s0 h1.1
      exact ⟨hk.1, by rw [hk.2]; exact h1.2.1, by rw [hk.2]; exact h1.2.2⟩
  | alarm mx my r1 r2 =>
    unfold step at h
    dsimp only at h
    split_ifs at h with hg
    · simp only [Option.some.injEq] at h; subst h; exact hc
    · simp only [Option.some.injEq] at h; subst h
      have ha := alarm_handler_cursors R mx my r1 r2 s.g
      exact ⟨hc.1, by dsimp only; rw [ha.2]; exact hc.2.1, ha.1 hc.2.2⟩

theorem run_cursors (R : Int) (evs : List Event) (s0 s : Game)
    (h : run R s0 evs = some s) (h0 : cursors_in_range s0) : cursors_in_range s := by
  induction evs generalizing s0 with
  | nil => simp only [run, Option.some.injEq] at h; subst h; exact h0
  | cons e es ih =>
    simp only [run, Option.bind_eq_some] at h
    obtain ⟨s1, h1, h2⟩ := h
    exact ih s1 h2 (step_cursors R s0 s1 e h1 h0)

theorem init_game_cursors (R mx my r : Int) (mf me : Mag) (mr : Roster) :
    cursors_in_range (init_game R mx my r mf me mr) := by
  unfold cursors_in_range init_game
  dsimp only
  exact ⟨by norm_num, by norm_num, by norm_num⟩

/-- C8: every key handler keeps `bullet_index < MAGSIZE`, `update_enemies`
keeps `enemy_bullet_index < MAGSIZE * ENEMIES`, `alarm_handler` keeps
`enemy_index < ENEMIES` (the cursors are naturals, so `0 ≤` holds by type), and
hence all three cursors are in range in every state reachable from the initial
state. -/
theorem cursors_stay_in_range :
    (∀ (max_x max_y key : Int) (s : Game), s.bullet_index < MAGSIZE →
      (handle_key max_x max_y key s).bullet_index < MAGSIZE) ∧
    (∀ (RAND_MAX max_x max_y : Int) (friendly_mag : Mag) (st st1 : EnemyPass),
      update_enemies RAND_MAX max_x max_y friendly_mag st = some st1 →
      st.g.enemy_bullet_index < MAGSIZE * ENEMIES →
      st1.g.enemy_bullet_index < MAGSIZE * ENEMIES) ∧
    (∀ (RAND_MAX max_x max_y r_spawn r_delay : Int) (g : Globals),
      g.enemy_index < ENEMIES →
      (alarm_handler RAND_MAX max_x max_y r_spawn r_delay g).enemy_index < ENEMIES) ∧
    (∀ (RAND_MAX max_x max_y r_delay : Int) (mem_f mem_e : Mag) (mem_r : Roster)
      (evs : List Event) (s : Game),
      run RAND_MAX (init_game RAND_MAX max_x max_y r_delay mem_f mem_e mem_r) evs = some s →
      s.bullet_index < MAGSIZE ∧ s.g.enemy_bullet_index < MAGSIZE * ENEMIES ∧
        s.g.enemy_index < ENEMIES) :=
  ⟨fun mx my key s hc => (handle_key_cursor mx my key s hc).1,
   fun R mx my fm st st1 h hc => (update_enemies_cursors R mx my fm st st1 h).1 hc,
   fun R mx my r1 r2 g hc => (alarm_handler_cursors R mx my r1 r2 g).1 hc,
   fun R mx my r mf me mr evs s h =>
     run_cursors R evs _ s h (init_game_cursors R mx my r mf me mr)⟩

theorem cursors_stay_in_range_witness :
    (handle_key 80 14 10 (game_with mag_dormant 7 10)).bullet_index < MAGSIZE ∧
    (alarm_handler glibc_RAND_MAX 80 14 hold hold pass_one.g).enemy_index < ENEMIES :=
  ⟨cursors_stay_in_range.1 80 14 10 (game_with mag_dormant 7 10) (by decide),
   cursors_stay_in_range.2.2.1 glibc_RAND_MAX 80 14 hold hold pass_one.g (by decide)⟩

theorem fires_cursor (capacity : Nat) (ps : List (Int × Int)) (mag : Mag) (c : Nat) :
    (fires capacity ps (mag, c)).2 = if ps = [] then c else (c + ps.length) % capacity := by
  induction ps generalizing mag c with
  | nil => simp [fires]
  | cons p ps ih =>
    simp only [fires, fire, ih, List.length_cons, reduceCtorEq, if_false]
    split_ifs with hps
    · subst hps; simp
    · rw [Nat.mod_add_mod]; congr 1; omega

theorem fire_slot (capacity : Nat) (st : Mag × Nat) (x y : Int) :
    (fire capacity st x y).1 st.2 =
      { x := x, y := y, dir := (st.1 st.2).dir, alive := true } ∧
    (∀ j : Nat, j ≠ st.2 → (fire capacity st x y).1 j = st.1 j) ∧
    (fire capacity st x y).2 = (st.2 + 1) % capacity := by
  refine ⟨?_, fun j hj => ?_, rfl⟩
  · simp only [fire, Function.update_same, shoot_bullet]
  · simp only [fire, Function.update_noteq hj]

theorem move_enemy_fires (R mx my : Int) (i : Nat) (st st1 : EnemyPass)
    (h : move_enemy R mx my i st = some st1) :
    (st1.enemy_mag, st1.g.enemy_bullet_index) = (st.enemy_mag, st.g.enemy_bullet_index) ∨
    (st1.enemy_mag, st1.g.enemy_bullet_index) =
      fire (ENEMIES * MAGSIZE) (st.enemy_mag, st.g.enemy_bullet_index)
        ((st1.g.enemies i).x + 2) ((st1.g.enemies i).y - 4) := by
  unfold move_enemy at h
  dsimp only at h
  split at h
  · exact absurd h (by simp)
  · split at h
    · exact absurd h (by simp)
    · split at h
      · simp only [Option.some.injEq] at h
        subst h
        right
        simp only [Function.update_same]
      · simp only [Option.some.injEq] at h
        subst h
        left
        rfl

/-- C9: both the space key (while `bullets ≠ 0`) and every change
`update_enemies` makes to the enemy magazine are a `fire` at the owner's
cursor, with capacity `MAGSIZE` and `ENEMIES * MAGSIZE`.  For a magazine of
any capacity whose cursor starts at 0, after `k - 1` fires the
cursor is `(k - 1) % capacity`, so the `k`-th fire makes exactly that slot
alive at the new position; after `capacity` fires the cursor is 0 again and
the next fire overwrites slot 0. -/
theorem kth_fire_writes_slot (capacity : Nat) (mag : Mag)
    (ps : List (Int × Int)) (x y : Int) :
    (∀ (max_x max_y : Int) (s : Game), s.bullets ≠ 0 →
      ((handle_key max_x max_y 32 s).friendly_mag, (handle_key max_x max_y 32 s).bullet_index) =
        fire MAGSIZE (s.friendly_mag, s.bullet_index) (s.x + 8) (s.y + 1)) ∧
    (∀ (RAND_MAX max_x max_y : Int) (i : Nat) (st st1 : EnemyPass),
      move_enemy RAND_MAX max_x max_y i st = some st1 →
      (st1.enemy_mag, st1.g.enemy_bullet_index) = (st.enemy_mag, st.g.enemy_bullet_index) ∨
      (st1.enemy_mag, st1.g.enemy_bullet_index) =
        fire (ENEMIES * MAGSIZE) (st.enemy_mag, st.g.enemy_bullet_index)
          ((st1.g.enemies i).x + 2) ((st1.g.enemies i).y - 4)) ∧
    (fires capacity ps (mag, 0)).2 = ps.length % capacity ∧
    (fire capacity (fires capacity ps (mag, 0)) x y).1 (ps.length % capacity) =
      { x := x, y := y,
        dir := ((fires capacity ps (mag, 0)).1 (ps.length % capacity)).dir, alive := true } ∧
    (∀ j : Nat, j ≠ ps.length % capacity →
      (fire capacity (fires capacity ps (mag, 0)) x y).1 j = (fires capacity ps (mag, 0)).1 j) ∧
    (ps.length = capacity →
      (fires capacity ps (mag, 0)).2 = 0 ∧
      (fire capacity (fires capacity ps (mag, 0)) x y).1 0 =
        { x := x, y := y, dir := ((fires capacity ps (mag, 0)).1 0).dir, alive := true }) := by
  have hcur : (fires capacity ps (mag, 0)).2 = ps.length % capacity := by
    rw [fires_cursor]
    split_ifs with hps
    · subst hps; simp
    · rw [Nat.zero_add]
  have hf := fire_slot capacity (fires capacity ps (mag, 0)) x y
  rw [hcur] at hf
  refine ⟨fun mx my s hs => ?_, move_enemy_fires, hcur, hf.1, hf.2.1, fun hlen => ?_⟩
  · rw [handle_key_space, if_pos hs]
    rfl
  · have h0 : ps.length % capacity = 0 := by rw [hlen]; exact Nat.mod_self _
    rw [h0] at hf hcur
    exact ⟨hcur, hf.1⟩

theorem kth_fire_writes_slot_witness :
    (fires MAGSIZE (List.replicate 10 (40, 8)) (mag_dormant, 0)).2 = 0 ∧
    (fire MAGSIZE (fires MAGSIZE (List.replicate 10 (40, 8)) (mag_dormant, 0)) 37 8).1 0 =
      { x := 37, y := 8,
        dir := ((fires MAGSIZE (List.replicate 10 (40, 8)) (mag_dormant, 0)).1 0).dir,
        alive := true } :=
  (kth_fire_writes_slot MAGSIZE mag_dormant (List.replicate 10 (40, 8)) 37 8).2.2.2.2.2
    (by decide)

/-! ## Bullets -/

theorem update_bullets_loop (max_y : Int) (mag : Mag) (bullets : Int) (n : Nat) :
    (∀ k : Nat, (loop (update_bullets_body max_y) n (mag, bullets)).1 k =
      if k < n then
        (if expires max_y (mag k) then { mag k with alive := false }
         else { mag k with y := (mag k).y + (mag k).dir })
      else mag k) ∧
    (loop (update_bullets_body max_y) n (mag, bullets)).2 =
      bullets + ((expiring max_y mag n).length : Nat) := by
  induction n with
  | zero => simp [loop, expiring]
  | succ n ih =>
    obtain ⟨ih1, ih2⟩ := ih
    have hn : (loop (update_bullets_body max_y) n (mag, bullets)).1 n = mag n := by
      rw [ih1 n, if_neg (lt_irrefl n)]
    simp only [loop, update_bullets_body, hn, expiring, List.range_succ, List.filter_append,
      List.length_append]
    by_cases he : expires max_y (mag n) = true
    · simp only [he, if_true]
      refine ⟨fun k => ?_, ?_⟩
      · by_cases hk : k = n
        · subst hk; simp [he]
        · rw [Function.update_noteq hk, ih1 k]
          have : k < n + 1 ↔ k < n := by omega
          simp only [this]
      · rw [ih2]; simp [expiring, he]; ring
    · have he1 : expires max_y (mag n) = false := by simpa using he
      simp only [he1, Bool.false_eq_true, if_false]
      refine ⟨fun k => ?_, ?_⟩
      · by_cases hk : k = n
        · subst hk; simp [he1]
        · rw [Function.update_noteq hk, ih1 k]
          have : k < n + 1 ↔ k < n := by omega
          simp only [this]
      · rw [ih2]; simp [expiring, he1]

/-- C10: a slot of the magazine that is alive with `y = 0` before
`update_bullets` is alive afterwards at `y = dir` in the same column, it is not
among the slots the call deactivates, and the returned count is `bullets` plus
the number of those slots. -/
theorem bullet_at_row_zero_survives (max_y : Int) (mag : Mag) (bullets : Int)
    (friendly : Bool) (i : Nat)
    (hi : i < (if friendly then MAGSIZE else MAGSIZE * ENEMIES))
    (ha : (mag i).alive = true) (hy : (mag i).y = 0) :
    ((update_bullets max_y mag bullets friendly).1 i).alive = true ∧
    ((update_bullets max_y mag bullets friendly).1 i).y = (mag i).dir ∧
    ((update_bullets max_y mag bullets friendly).1 i).x = (mag i).x ∧
    ((update_bullets max_y mag bullets friendly).1 i).dir = (mag i).dir ∧
    i ∉ expiring max_y mag (if friendly then MAGSIZE else MAGSIZE * ENEMIES) ∧
    (update_bullets max_y mag bullets friendly).2 =
      bullets +
        ((expiring max_y mag (if friendly then MAGSIZE else MAGSIZE * ENEMIES)).length : Nat) := by
  have hne : expires max_y (mag i) = false := by
    unfold expires; simp [hy]
  unfold update_bullets
  dsimp only
  generalize (if friendly then MAGSIZE else MAGSIZE * ENEMIES) = n at hi ⊢
  obtain ⟨h1, h2⟩ := update_bullets_loop max_y mag bullets n
  rw [h1 i, if_pos hi, hne]
  refine ⟨by simpa using ha, by simp [hy], rfl, rfl, ?_, h2⟩
  unfold expiring
  simp [hne]

theorem bullet_at_row_zero_survives_witness :
    ((update_bullets 24 (fun _ => ⟨40, 0, 1, true⟩) 3 true).1 2).alive = true ∧
    ((update_bullets 24 (fun _ => ⟨40, 0, 1, true⟩) 3 true).1 2).y = 1 ∧
    (update_bullets 24 (fun _ => ⟨40, 0, 1, true⟩) 3 true).2 = 3 := by
  have h := bullet_at_row_zero_survives 24 (fun _ => ⟨40, 0, 1, true⟩) 3 true 2
    (by decide) rfl rfl
  exact ⟨h.1, h.2.1, by rw [h.2.2.2.2.2]; decide⟩

theorem expires_iff (max_y : Int) (b : bullet) :
    expires max_y b = true ↔ b.alive = true ∧ b.y ≥ max_y ∧ b.y ≠ 0 := by
  unfold expires
  simp only [Bool.and_eq_true, decide_eq_true_eq]
  tauto

/-- C11 as stated fails: on a screen of height 24 an alive player bullet at
row 23 with `dir = 1` would move to row 24, outside `[0, 24)`, yet
`update_bullets` leaves it alive (at row 24) and returns the count unchanged. -/
theorem bullet_leaving_screen_stays_alive :
    (mag_last_row 0).alive = true ∧ (mag_last_row 0).y ≠ 0 ∧
    ¬ (0 ≤ (mag_last_row 0).y + (mag_last_row 0).dir ∧
        (mag_last_row 0).y + (mag_last_row 0).dir < 24) ∧
    (update_bullets 24 mag_last_row 3 true).1 0 = ⟨40, 24, 1, true⟩ ∧
    (update_bullets 24 mag_last_row 3 true).2 = 3 := by
  decide

/-- C11, amended: `update_bullets` tests the position before the move and only
against the lower edge.  It deactivates exactly the alive slots with
`y ≥ max_y` and `y ≠ 0` (leaving their position as it is), moves every other
alive slot one step (`y` becomes `y + dir`, `x` and `alive` unchanged), and
returns `bullets` plus the number of slots that were alive before and are not
alive after. -/
theorem update_bullets_effect (max_y : Int) (mag : Mag) (bullets : Int) (friendly : Bool) :
    (∀ i : Nat, i < (if friendly then MAGSIZE else MAGSIZE * ENEMIES) →
      (mag i).alive = true →
      ((mag i).y ≥ max_y ∧ (mag i).y ≠ 0 →
        (update_bullets max_y mag bullets friendly).1 i = { mag i with alive := false }) ∧
      (¬ ((mag i).y ≥ max_y ∧ (mag i).y ≠ 0) →
        (update_bullets max_y mag bullets friendly).1 i =
          { mag i with y := (mag i).y + (mag i).dir })) ∧
    (update_bullets max_y mag bullets friendly).2 =
      bullets +
        (((List.range (if friendly then MAGSIZE else MAGSIZE * ENEMIES)).filter
          (fun i => (mag i).alive &&
            !((update_bullets max_y mag bullets friendly).1 i).alive)).length : Nat) := by
  unfold update_bullets
  dsimp only
  generalize (if friendly then MAGSIZE else MAGSIZE * ENEMIES) = n
  obtain ⟨h1, h2⟩ := update_bullets_loop max_y mag bullets n
  refine ⟨fun i hi ha => ⟨fun hy => ?_, fun hy => ?_⟩, ?_⟩
  · rw [h1 i, if_pos hi, if_pos ((expires_iff max_y (mag i)).mpr ⟨ha, hy.1, hy.2⟩)]
  · have hne : ¬ expires max_y (mag i) = true := fun he =>
      hy ((expires_iff max_y (mag i)).mp he).2
    rw [h1 i, if_pos hi, if_neg hne]
  · rw [h2]
    unfold expiring
    congr 3
    apply List.filter_congr
    intro i hi
    rw [h1 i, if_pos (List.mem_range.mp hi)]
    by_cases he : expires max_y (mag i) = true
    · rw [if_pos he, he, ((expires_iff max_y (mag i)).mp he).1]
      rfl
    · rw [if_neg he]
      have he1 : expires max_y (mag i) = false := by simpa using he
      rw [he1]
      cases (mag i).alive <;> rfl

theorem update_bullets_effect_witness :
    (update_bullets 24 (fun _ => ⟨40, 24, 1, true⟩) 3 true).1 2 = ⟨40, 24, 1, false⟩ ∧
    (update_bullets 24 mag_last_row 3 true).1 2 = ⟨40, 24, 1, true⟩ :=
  ⟨((update_bullets_effect 24 (fun _ => ⟨40, 24, 1, true⟩) 3 true).1 2 (by decide) rfl).1
      (by decide),
   ((update_bullets_effect 24 mag_last_row 3 true).1 2 (by decide) rfl).2 (by decide)⟩

/-- C12 (the code departs from it): the first `update_bullets` of a game takes
the dormant slot 0 of the player magazine from `(0, 0)` to `(0, 1)` and that of
the enemy magazine from `(0, 0)` to `(0, -1)`: dormant bullets are advanced. -/
theorem update_bullets_advances_dormant :
    game_start.friendly_mag 0 = ⟨0, 0, 1, false⟩ ∧
    (update_bullets 14 game_start.friendly_mag 10 true).1 0 = ⟨0, 1, 1, false⟩ ∧
    game_start.enemy_mag 0 = ⟨0, 0, -1, false⟩ ∧
    (update_bullets 14 game_start.enemy_mag 0 false).1 0 = ⟨0, -1, -1, false⟩ := by
  decide

theorem update_enemies_keeps_bullets_alive (R mx my : Int) (fm : Mag) (st st1 : EnemyPass)
    (h : update_enemies R mx my fm st = some st1) (k : Nat)
    (hk : (st.enemy_mag k).alive = true) : (st1.enemy_mag k).alive = true := by
  refine loopOpt_preserves (fun s => (s.enemy_mag k).alive = true)
    (update_enemies_body R mx my fm) (fun i s s1 hb hs => ?_) ENEMIES st st1 h hk
  unfold update_enemies_body at hb
  generalize MAGSIZE * ENEMIES = n at hb
  simp only [Option.map_eq_some'] at hb
  obtain ⟨s0, h0, rfl⟩ := hb
  dsimp only
  split at h0
  · rcases move_enemy_fires R mx my i s s0 h0 with he | he
    · rw [(Prod.mk.inj he).1]; exact hs
    · rw [(Prod.mk.inj he).1]
      dsimp only
      by_cases hc : k = s.g.enemy_bullet_index
      · rw [hc, Function.update_same]; rfl
      · rw [Function.update_noteq hc]; exact hs
  · simp only [Option.some.injEq] at h0; subst h0; exact hs

/-- C13 as stated fails: in one pass of the updates of `main` the player bullet
of slot 0 reaches the enemy's row inside its span and the enemy bullet of slot
0 reaches the player's row inside the plane's span; the enemy is destroyed
(`enemies_destroyed` becomes 1) and `health` drops to 9, yet both bullets are
still alive afterwards. -/
theorem colliding_bullets_stay_alive :
    (update_phase glibc_RAND_MAX 80 14 [forth, hold] game_two_hits).map
      (fun s => ((s.g.enemies 0).alive, s.g.enemies_destroyed, s.friendly_mag 0, s.health,
        s.enemy_mag 0)) =
      some (false, 1, ⟨37, 11, 1, true⟩, 9, ⟨40, 7, -1, true⟩) := by
  decide

/-- C13, amended: a collision deactivates no bullet.  After the updates of one
iteration of `main` the player magazine is the one `update_bullets` left
(neither `update_enemies` nor `update_health` writes it), `health` is what
`update_health` returns for the enemy magazine found at the end, and every
enemy-magazine slot that was alive after `update_bullets` is still alive; only
the bounds test of `update_bullets` clears `alive`. -/
theorem collisions_deactivate_no_bullet (RAND_MAX max_x max_y : Int) (rand : List Int)
    (s s1 : Game) (h : update_phase RAND_MAX max_x max_y rand s = some s1) :
    s1.friendly_mag = (update_bullets max_y s.friendly_mag s.bullets true).1 ∧
    s1.health = update_health s1.enemy_mag s.health s.x s.y ∧
    ∀ k : Nat, ((update_bullets max_y s.enemy_mag 0 false).1 k).alive = true →
      (s1.enemy_mag k).alive = true := by
  unfold update_phase at h
  dsimp only at h
  split at h
  · exact absurd h (by simp)
  · rename_i st hst
    simp only [Option.some.injEq] at h
    subst h
    exact ⟨rfl, rfl, fun k hk =>
      update_enemies_keeps_bullets_alive RAND_MAX max_x max_y _ _ st hst k hk⟩

theorem collisions_deactivate_no_bullet_witness :
    (update_phase glibc_RAND_MAX 80 14 [forth, hold] game_two_hits).map
      (fun s => (s.enemy_mag 0).alive) = some true := by
  have hsome :
      (update_phase glibc_RAND_MAX 80 14 [forth, hold] game_two_hits).isSome = true := by
    decide
  obtain ⟨s1, h⟩ := Option.isSome_iff_exists.mp hsome
  rw [h]
  simp only [Option.map_some', Option.some.injEq]
  exact (collisions_deactivate_no_bullet glibc_RAND_MAX 80 14 [forth, hold] game_two_hits s1
    h).2.2 0 (by decide)

/-! ## Spawning -/

theorem collide_body_num_le (fm : Mag) (i j : Nat) (g : Globals) :
    (collide_body fm i j g).num_enemies ≤ g.num_enemies := by
  unfold collide_body
  split_ifs
  · dsimp only; omega
  · exact le_refl _
  · exact le_refl _

theorem loop_collide_num_le (fm : Mag) (i n : Nat) (g : Globals) :
    (loop (collide_body fm i) n g).num_enemies ≤ g.num_enemies :=
  loop_preserves (fun g1 => g1.num_enemies ≤ g.num_enemies) (collide_body fm i)
    (fun j g1 h => le_trans (collide_body_num_le fm i j g1) h) n g (le_refl _)

theorem move_enemy_num (R mx my : Int) (i : Nat) (st st1 : EnemyPass)
    (h : move_enemy R mx my i st = some st1) : st1.g.num_enemies = st.g.num_enemies := by
  unfold move_enemy at h
  dsimp only at h
  split at h
  · exact absurd h (by simp)
  · split at h
    · exact absurd h (by simp)
    · split at h <;>
      · simp only [Option.some.injEq] at h
        subst h
        rfl

theorem update_enemies_num_le (R mx my : Int) (fm : Mag) (st st1 : EnemyPass)
    (h : update_enemies R mx my fm st = some st1) : st1.g.num_enemies ≤ st.g.num_enemies := by
  refine loopOpt_preserves (fun s => s.g.num_enemies ≤ st.g.num_enemies)
    (update_enemies_body R mx my fm) (fun i s s1 hb hs => ?_) ENEMIES st st1 h (le_refl _)
  unfold update_enemies_body at hb
  generalize MAGSIZE * ENEMIES = n at hb
  simp only [Option.map_eq_some'] at hb
  obtain ⟨s0, h0, rfl⟩ := hb
  dsimp only
  refine le_trans (loop_collide_num_le fm i n s0.g) ?_
  split at h0
  · rw [move_enemy_num R mx my i s s0 h0]; exact hs
  · simp only [Option.some.injEq] at h0; subst h0; exact hs

/-- C14: `alarm_handler` and `update_enemies` keep `num_enemies ≤ ENEMIES`, and
with `num_enemies = ENEMIES` a firing of `alarm_handler` changes nothing but
`alarm_delay`, which it sets to the freshly drawn delay. -/
theorem num_enemies_stays_bounded :
    (∀ (RAND_MAX max_x max_y r_spawn r_delay : Int) (g : Globals),
      g.num_enemies ≤ ENEMIES →
      (alarm_handler RAND_MAX max_x max_y r_spawn r_delay g).num_enemies ≤ ENEMIES) ∧
    (∀ (RAND_MAX max_x max_y : Int) (friendly_mag : Mag) (st st1 : EnemyPass),
      update_enemies RAND_MAX max_x max_y friendly_mag st = some st1 →
      st.g.num_enemies ≤ ENEMIES → st1.g.num_enemies ≤ ENEMIES) ∧
    (∀ (RAND_MAX max_x max_y r_spawn r_delay : Int) (g : Globals),
      g.num_enemies = ENEMIES →
      alarm_handler RAND_MAX max_x max_y r_spawn r_delay g =
        { g with alarm_delay := my_random RAND_MAX r_delay MINALRM MAXALRM }) := by
  refine ⟨fun R mx my r1 r2 g hg => ?_, fun R mx my fm st st1 h hg =>
    le_trans (update_enemies_num_le R mx my fm st st1 h) hg, fun R mx my r1 r2 g hg => ?_⟩
  · unfold alarm_handler spawn_enemy
    dsimp only
    split_ifs with hlt
    · dsimp only
      have : g.num_enemies < 8 := hlt
      show g.num_enemies + 1 ≤ 8
      omega
    · exact hg
  · unfold alarm_handler
    dsimp only
    rw [if_neg (by rw [hg]; exact lt_irrefl _)]

theorem num_enemies_stays_bounded_witness :
    (alarm_handler glibc_RAND_MAX 80 14 hold hold
      { pass_one.g with num_enemies := 8 }).num_enemies ≤ ENEMIES ∧
    (alarm_handler glibc_RAND_MAX 80 14 hold hold
      { pass_one.g with num_enemies := 8 }).enemy_index = 1 := by
  refine ⟨num_enemies_stays_bounded.1 glibc_RAND_MAX 80 14 hold hold
    { pass_one.g with num_enemies := 8 } (by decide), ?_⟩
  rw [num_enemies_stays_bounded.2.2 glibc_RAND_MAX 80 14 hold hold
    { pass_one.g with num_enemies := 8 } rfl]
  rfl

/-- C15 (the code departs from it): from the initial state, one alarm and four
iterations of the loop of `main`, in the first of which the player fires a
volley, lead to a state with `num_enemies = -1` while no roster slot is alive;
two bullets of the volley lie in the span of the one enemy and each of them
decrements the counter. -/
theorem num_enemies_drifts_from_alive_count :
    (run glibc_RAND_MAX game_start volley_meets_enemy).map
      (fun s => (s.g.num_enemies, alive_enemies s.g.enemies, s.g.enemies_destroyed,
        s.game_over)) = some (-1, 0, 2, false) := by
  decide

/-! ## Random numbers -/

theorem my_random_range (R r min max : Int) (hmm : min ≤ max) (hr0 : 0 ≤ r) (hrR : r ≤ R) :
    min ≤ my_random R r min max ∧ my_random R r min max ≤ max := by
  unfold my_random
  have hn : 0 < max - min + 1 := by omega
  have hR : 0 ≤ R := le_trans hr0 hrR
  rw [Int.tdiv_eq_ediv hR (le_of_lt hn)]
  have hq0 : 0 ≤ R / (max - min + 1) := Int.ediv_nonneg hR (le_of_lt hn)
  have hq : 0 < R / (max - min + 1) + 1 := by omega
  rw [Int.tdiv_eq_ediv hr0 (le_of_lt hq)]
  have hlo : 0 ≤ r / (R / (max - min + 1) + 1) := Int.ediv_nonneg hr0 (le_of_lt hq)
  have hmul : r < (max - min + 1) * (R / (max - min + 1) + 1) := by
    have h1 := Int.lt_mul_ediv_self_add (x := R) hn
    have h2 : (max - min + 1) * (R / (max - min + 1) + 1) =
        (max - min + 1) * (R / (max - min + 1)) + (max - min + 1) := by ring
    rw [h2]
    exact lt_of_le_of_lt hrR h1
  have hhi : r / (R / (max - min + 1) + 1) < max - min + 1 := Int.ediv_lt_of_lt_mul hq hmul
  constructor <;> omega

theorem my_random_top (R n : Int) (hn : 0 < n) (hR : n * (n - 1) ≤ R) :
    Int.tdiv R (Int.tdiv R n + 1) = n - 1 := by
  have hR0 : 0 ≤ R := by nlinarith
  rw [Int.tdiv_eq_ediv hR0 (le_of_lt hn)]
  have hq0 : 0 ≤ R / n := Int.ediv_nonneg hR0 (le_of_lt hn)
  have hq : 0 < R / n + 1 := by omega
  rw [Int.tdiv_eq_ediv hR0 (le_of_lt hq)]
  have hlt : R < n * (R / n) + n := Int.lt_mul_ediv_self_add hn
  have hle : n * (R / n) ≤ R := Int.mul_ediv_self_le (ne_of_gt hn)
  have hge : n - 1 ≤ R / n := by
    rw [Int.le_ediv_iff_mul_le hn]
    nlinarith
  apply le_antisymm
  · have : R / (R / n + 1) < n := by
      apply Int.ediv_lt_of_lt_mul hq
      nlinarith
    omega
  · rw [Int.le_ediv_iff_mul_le hq]
    nlinarith

/-- C16 as stated fails: on a screen 3 columns wide a firing of
`alarm_handler` with `num_enemies = 1 < ENEMIES` spawns the enemy at column 0,
which is not within `[0, max_x - ENEMYWIDTH] = [0, -2]`. -/
theorem spawn_column_outside_narrow_screen :
    pass_one.g.num_enemies < ENEMIES ∧
    (alarm_handler glibc_RAND_MAX 3 24 hold hold pass_one.g).enemies pass_one.g.enemy_index =
      ⟨0, 21, true⟩ ∧
    ¬ (0 ≤
        ((alarm_handler glibc_RAND_MAX 3 24 hold hold pass_one.g).enemies
          pass_one.g.enemy_index).x ∧
      ((alarm_handler glibc_RAND_MAX 3 24 hold hold pass_one.g).enemies
          pass_one.g.enemy_index).x ≤ 3 - ENEMYWIDTH) := by
  decide

/-- C16, amended: on a screen at least `ENEMYWIDTH` columns wide, for every
state with `num_enemies < ENEMIES` and every sample in `[0, RAND_MAX]`, a
firing of `alarm_handler` makes the roster slot at `enemy_index` alive at a
column in `[0, max_x - ENEMYWIDTH]` and row `max_y - 3`, adds 1 to
`num_enemies`, moves `enemy_index` to `(enemy_index + 1) % ENEMIES` and
changes no other roster slot. -/
theorem alarm_handler_spawns (RAND_MAX max_x max_y r_spawn r_delay : Int) (g : Globals)
    (hw : ENEMYWIDTH ≤ max_x) (hr : 0 ≤ r_spawn ∧ r_spawn ≤ RAND_MAX)
    (hn : g.num_enemies < ENEMIES) :
    ((alarm_handler RAND_MAX max_x max_y r_spawn r_delay g).enemies g.enemy_index).alive =
      true ∧
    0 ≤ ((alarm_handler RAND_MAX max_x max_y r_spawn r_delay g).enemies g.enemy_index).x ∧
    ((alarm_handler RAND_MAX max_x max_y r_spawn r_delay g).enemies g.enemy_index).x ≤
      max_x - ENEMYWIDTH ∧
    ((alarm_handler RAND_MAX max_x max_y r_spawn r_delay g).enemies g.enemy_index).y =
      max_y - 3 ∧
    (alarm_handler RAND_MAX max_x max_y r_spawn r_delay g).num_enemies = g.num_enemies + 1 ∧
    (alarm_handler RAND_MAX max_x max_y r_spawn r_delay g).enemy_index =
      (g.enemy_index + 1) % ENEMIES ∧
    ∀ k : Nat, k ≠ g.enemy_index →
      (alarm_handler RAND_MAX max_x max_y r_spawn r_delay g).enemies k = g.enemies k := by
  have hx := my_random_range RAND_MAX r_spawn 0 (max_x - ENEMYWIDTH) (by omega) hr.1 hr.2
  unfold alarm_handler spawn_enemy
  dsimp only
  rw [if_pos hn]
  dsimp only
  rw [Function.update_same]
  exact ⟨rfl, hx.1, hx.2, rfl, rfl, rfl, fun k hk => Function.update_noteq hk _ _⟩

theorem alarm_handler_spawns_witness :
    ((alarm_handler glibc_RAND_MAX 80 14 988972775 hold pass_one.g).enemies 1).alive = true ∧
    (alarm_handler glibc_RAND_MAX 80 14 988972775 hold pass_one.g).num_enemies = 2 ∧
    (alarm_handler glibc_RAND_MAX 80 14 988972775 hold pass_one.g).enemy_index = 2 :=
  have h := alarm_handler_spawns glibc_RAND_MAX 80 14 988972775 hold pass_one.g
    (by decide) (by decide) (by decide)
  ⟨h.1, h.2.2.2.2.1, h.2.2.2.2.2.1⟩

/-- C17: for `min ≤ max` and a sample `0 ≤ r ≤ RAND_MAX` (the claim's further
premise `max - min + 1 ≤ RAND_MAX` is not needed) the result of `my_random`
lies in `[min, max]`; and for `RAND_MAX ≥ 32767` the two ranges the game uses,
`[-1, 1]` and `[MINALRM, MAXALRM]`, see both endpoints returned, for the
samples `0` and `RAND_MAX`. -/
theorem my_random_within_range :
    (∀ RAND_MAX r min max : Int, min ≤ max → max - min + 1 ≤ RAND_MAX →
      0 ≤ r → r ≤ RAND_MAX →
      min ≤ my_random RAND_MAX r min max ∧ my_random RAND_MAX r min max ≤ max) ∧
    (∀ RAND_MAX : Int, 32767 ≤ RAND_MAX →
      (∃ r : Int, 0 ≤ r ∧ r ≤ RAND_MAX ∧ my_random RAND_MAX r (-1) 1 = -1) ∧
      (∃ r : Int, 0 ≤ r ∧ r ≤ RAND_MAX ∧ my_random RAND_MAX r (-1) 1 = 1) ∧
      (∃ r : Int, 0 ≤ r ∧ r ≤ RAND_MAX ∧ my_random RAND_MAX r MINALRM MAXALRM = MINALRM) ∧
      (∃ r : Int, 0 ≤ r ∧ r ≤ RAND_MAX ∧ my_random RAND_MAX r MINALRM MAXALRM = MAXALRM)) := by
  refine ⟨fun R r min max hmm _ hr0 hrR => my_random_range R r min max hmm hr0 hrR,
    fun R hR => ⟨⟨0, le_refl _, by omega, ?_⟩, ⟨R, by omega, le_refl _, ?_⟩,
      ⟨0, le_refl _, by omega, ?_⟩, ⟨R, by omega, le_refl _, ?_⟩⟩⟩
  · unfold my_random; simp
  · unfold my_random
    have h3 : (1 : Int) - -1 + 1 = 3 := by norm_num
    rw [h3, my_random_top R 3 (by norm_num) (by omega)]
    norm_num
  · unfold my_random; simp
  · unfold my_random
    have h6 : MAXALRM - MINALRM + 1 = 6 := by decide
    rw [h6, my_random_top R 6 (by norm_num) (by omega)]
    decide

theorem my_random_within_range_witness :
    -1 ≤ my_random glibc_RAND_MAX hold (-1) 1 ∧ my_random glibc_RAND_MAX hold (-1) 1 ≤ 1 :=
  my_random_within_range.1 glibc_RAND_MAX hold (-1) 1 (by decide) (by decide) (by decide)
    (by decide)

/-! ## Score -/

theorem float_trunc_eq_ceil (t : float) (hm : t.m ≤ 0) : t.trunc = ⌈t.val⌉ := by
  unfold float.trunc float.val
  by_cases he : 0 ≤ t.e
  · rw [if_pos he]
    obtain ⟨n, hn⟩ := Int.eq_ofNat_of_zero_le he
    rw [hn]
    simp only [Int.toNat_ofNat, zpow_natCast]
    have : ((t.m : ℚ) * (2 : ℚ) ^ n) = ((t.m * 2 ^ n : Int) : ℚ) := by push_cast; ring
    rw [this, Int.ceil_intCast]
  · rw [if_neg he]
    obtain ⟨n, hn⟩ := Int.eq_ofNat_of_zero_le (show 0 ≤ -t.e by omega)
    have hen : t.e = -(n : Int) := by omega
    rw [hn, hen]
    simp only [Int.toNat_ofNat, zpow_neg, zpow_natCast]
    obtain ⟨k, hk⟩ := Int.eq_ofNat_of_zero_le (show 0 ≤ -t.m by omega)
    have hmk : t.m = -(k : Int) := by omega
    have h1 : ((t.m : ℚ) * ((2 : ℚ) ^ n)⁻¹) = -(((k : Int) : ℚ) / ((2 ^ n : ℕ) : ℚ)) := by
      rw [hmk]; push_cast; rw [div_eq_mul_inv]; ring
    rw [h1, Int.ceil_neg, Rat.floor_intCast_div_natCast, hmk, Int.neg_tdiv,
      Int.tdiv_eq_ediv (Int.ofNat_nonneg k) (by positivity)]
    push_cast
    rfl

/-- C19 (the code departs from it): the collision scan of `update_enemies`
reads the player magazine past its `MAGSIZE` slots.  Two magazines that agree
on every index below `MAGSIZE` and differ at index 10 give different results:
with the one the enemy at `(10, 20)` survives, with the other it is destroyed. -/
theorem collision_scan_reads_past_magazine :
    (∀ j : Nat, j < MAGSIZE → mag_beyond j = mag_clear j) ∧
    (update_enemies glibc_RAND_MAX 80 24 mag_clear pass_one).map
      (fun s => ((s.g.enemies 0).alive, s.g.enemies_destroyed)) = some (true, 0) ∧
    (update_enemies glibc_RAND_MAX 80 24 mag_beyond pass_one).map
      (fun s => ((s.g.enemies 0).alive, s.g.enemies_destroyed)) = some (false, 1) := by
  decide

/-! ## Leaving the loop -/

theorem handle_key_game_over (max_x max_y key : Int) (s : Game) :
    (handle_key max_x max_y key s).game_over = true ↔
      (s.game_over = true ∨ key = 81 ∨ key = 113) := by
  unfold handle_key
  simp only [KEY_UP, KEY_DOWN, KEY_LEFT, KEY_RIGHT]
  split_ifs <;> simp_all <;> omega

/-- C20: an iteration of the loop of `main` that starts with `game_over` unset
ends with `game_over` set, so that the loop stops, exactly when the health that
`update_health` returned in it is `≤ 0` or the key read is `'Q'` (81) or `'q'`
(113); in particular the quit key stops the loop whatever the health is. -/
theorem loop_stops_iff_dead_or_quit (RAND_MAX max_x max_y key : Int) (rand : List Int)
    (s s1 : Game) (hrun : s.game_over = false)
    (h : tick RAND_MAX max_x max_y key rand s = some s1) :
    (∃ st : EnemyPass,
      update_enemies RAND_MAX max_x max_y (update_bullets max_y s.friendly_mag s.bullets true).1
        ⟨(update_bullets max_y s.enemy_mag 0 false).1, s.g, rand⟩ = some st ∧
      s1.health = update_health st.enemy_mag s.health s.x s.y) ∧
    (s1.game_over = true ↔ (s1.health ≤ 0 ∨ key = 81 ∨ key = 113)) ∧
    (key = 81 ∨ key = 113 → s1.game_over = true) := by
  unfold tick at h
  simp only [Option.map_eq_some'] at h
  obtain ⟨s0, h0, rfl⟩ := h
  have hk := handle_key_game_over max_x max_y key s0
  have hh := (handle_key_health max_x max_y key s0).1
  unfold update_phase at h0
  dsimp only at h0
  split at h0
  · exact absurd h0 (by simp)
  · rename_i st hst
    simp only [Option.some.injEq] at h0
    subst h0
    rw [hh]
    refine ⟨⟨st, hst, rfl⟩, ?_, fun hq => hk.mpr (Or.inr hq)⟩
    rw [hk]
    dsimp only
    rw [hrun]
    split_ifs with hle
    · simp [hle]
    · simp [hle]

theorem loop_stops_iff_dead_or_quit_witness :
    (tick glibc_RAND_MAX 80 14 113 [] game_start).map (fun s => (s.game_over, s.health)) =
      some (true, 10) := by
  have hsome : (tick glibc_RAND_MAX 80 14 113 [] game_start).isSome = true := by decide
  obtain ⟨s1, h⟩ := Option.isSome_iff_exists.mp hsome
  have hhealth : (tick glibc_RAND_MAX 80 14 113 [] game_start).map (fun s => s.health) =
      some 10 := by decide
  rw [h] at hhealth ⊢
  simp only [Option.map_some', Option.some.injEq, Prod.mk.injEq] at hhealth ⊢
  exact ⟨(loop_stops_iff_dead_or_quit glibc_RAND_MAX 80 14 113 [] game_start s1 rfl h).2.2
    (Or.inr rfl), hhealth⟩

/-! ## Player movement -/

theorem handle_key_position (max_x max_y key : Int) (s : Game) :
    ((key = KEY_UP ∨ key = 87 ∨ key = 119) →
      (handle_key max_x max_y key s).x = s.x ∧
      (handle_key max_x max_y key s).y = if s.y > 2 then s.y - 1 else s.y) ∧
    ((key = KEY_DOWN ∨ key = 83 ∨ key = 115) →
      (handle_key max_x max_y key s).x = s.x ∧
      (handle_key max_x max_y key s).y = if s.y < max_y - 2 then s.y + 1 else s.y) ∧
    ((key = KEY_LEFT ∨ key = 65 ∨ key = 97) →
      (handle_key max_x max_y key s).x = (if s.x > 3 then s.x - 3 else s.x) ∧
      (handle_key max_x max_y key s).y = s.y) ∧
    ((key = KEY_RIGHT ∨ key = 68 ∨ key = 100) →
      (handle_key max_x max_y key s).x =
        (if s.x + PLANEWIDTH + 3 < max_x then s.x + 3 else s.x) ∧
      (handle_key max_x max_y key s).y = s.y) ∧
    (¬ (key = KEY_UP ∨ key = 87 ∨ key = 119) → ¬ (key = KEY_DOWN ∨ key = 83 ∨ key = 115) →
      ¬ (key = KEY_LEFT ∨ key = 65 ∨ key = 97) → ¬ (key = KEY_RIGHT ∨ key = 68 ∨ key = 100) →
      (handle_key max_x max_y key s).x = s.x ∧ (handle_key max_x max_y key s).y = s.y) := by
  unfold handle_key
  simp only [KEY_UP, KEY_DOWN, KEY_LEFT, KEY_RIGHT, xdirection, ydirection]
  refine ⟨fun h => ?_, fun h => ?_, fun h => ?_, fun h => ?_, fun h1 h2 h3 h4 => ?_⟩
  · rw [if_pos h]; split_ifs <;> exact ⟨rfl, rfl⟩
  · rw [if_neg (by omega), if_pos h]; split_ifs <;> exact ⟨rfl, rfl⟩
  · rw [if_neg (by omega), if_neg (by omega), if_pos h]; split_ifs <;> exact ⟨rfl, rfl⟩
  · rw [if_neg (by omega), if_neg (by omega), if_neg (by omega), if_pos h]
    split_ifs <;> exact ⟨rfl, rfl⟩
  · rw [if_neg h1, if_neg h2, if_neg h3, if_neg h4]
    split_ifs <;> exact ⟨rfl, rfl⟩

/-- C23: for a screen of size `(max_x, max_y)` every key keeps the player
within `2 ≤ y ≤ max_y - 2`, `0 < x`, `x + PLANEWIDTH < max_x`.  An up or down
key changes `y` by one row and leaves `x`, a left or right key changes `x` by
3 columns and leaves `y`, and each leaves the position as it is when its guard
fails at the edge; every other key leaves the position as it is. -/
theorem player_stays_in_bounds (max_x max_y key : Int) (s : Game) :
    (2 ≤ s.y ∧ s.y ≤ max_y - 2 ∧ 0 < s.x ∧ s.x + PLANEWIDTH < max_x →
      2 ≤ (handle_key max_x max_y key s).y ∧ (handle_key max_x max_y key s).y ≤ max_y - 2 ∧
      0 < (handle_key max_x max_y key s).x ∧
      (handle_key max_x max_y key s).x + PLANEWIDTH < max_x) ∧
    ((key = KEY_UP ∨ key = 87 ∨ key = 119) →
      (handle_key max_x max_y key s).x = s.x ∧
      (handle_key max_x max_y key s).y = if s.y > 2 then s.y - 1 else s.y) ∧
    ((key = KEY_DOWN ∨ key = 83 ∨ key = 115) →
      (handle_key max_x max_y key s).x = s.x ∧
      (handle_key max_x max_y key s).y = if s.y < max_y - 2 then s.y + 1 else s.y) ∧
    ((key = KEY_LEFT ∨ key = 65 ∨ key = 97) →
      (handle_key max_x max_y key s).x = (if s.x > 3 then s.x - 3 else s.x) ∧
      (handle_key max_x max_y key s).y = s.y) ∧
    ((key = KEY_RIGHT ∨ key = 68 ∨ key = 100) →
      (handle_key max_x max_y key s).x =
        (if s.x + PLANEWIDTH + 3 < max_x then s.x + 3 else s.x) ∧
      (handle_key max_x max_y key s).y = s.y) ∧
    (¬ (key = KEY_UP ∨ key = 87 ∨ key = 119) → ¬ (key = KEY_DOWN ∨ key = 83 ∨ key = 115) →
      ¬ (key = KEY_LEFT ∨ key = 65 ∨ key = 97) → ¬ (key = KEY_RIGHT ∨ key = 68 ∨ key = 100) →
      (handle_key max_x max_y key s).x = s.x ∧ (handle_key max_x max_y key s).y = s.y) := by
  obtain ⟨hu, hd, hl, hr, ho⟩ := handle_key_position max_x max_y key s
  refine ⟨fun hb => ?_, hu, hd, hl, hr, ho⟩
  by_cases h1 : key = KEY_UP ∨ key = 87 ∨ key = 119
  · rw [(hu h1).1, (hu h1).2]; split_ifs <;> omega
  · by_cases h2 : key = KEY_DOWN ∨ key = 83 ∨ key = 115
    · rw [(hd h2).1, (hd h2).2]; split_ifs <;> omega
    · by_cases h3 : key = KEY_LEFT ∨ key = 65 ∨ key = 97
      · rw [(hl h3).1, (hl h3).2]; split_ifs <;> omega
      · by_cases h4 : key = KEY_RIGHT ∨ key = 68 ∨ key = 100
        · rw [(hr h4).1, (hr h4).2]; split_ifs <;> omega
        · rw [(ho h1 h2 h3 h4).1, (ho h1 h2 h3 h4).2]; exact hb

theorem player_stays_in_bounds_witness :
    2 ≤ (handle_key 80 14 100 game_start).y ∧ (handle_key 80 14 100 game_start).y ≤ 14 - 2 ∧
    0 < (handle_key 80 14 100 game_start).x ∧
    (handle_key 80 14 100 game_start).x + PLANEWIDTH < 80 :=
  (player_stays_in_bounds 80 14 100 game_start).1 (by decide)

/-! ## Enemy movement -/

theorem sample_step_spec (R : Int) (bad : Int → Bool) (rs : List Int) (v : Int)
    (rs1 : List Int) (h : sample_step R bad rs = some (v, rs1)) :
    bad v = false ∧ (∃ r ∈ rs, v = my_random R r (-1) 1) ∧ ∀ r ∈ rs1, r ∈ rs := by
  induction rs with
  | nil => simp [sample_step] at h
  | cons r rs ih =>
    unfold sample_step at h
    split_ifs at h with hb
    · obtain ⟨h1, ⟨r0, hr0, hv⟩, h3⟩ := ih h
      exact ⟨h1, ⟨r0, List.mem_cons_of_mem _ hr0, hv⟩,
        fun r1 hr1 => List.mem_cons_of_mem _ (h3 r1 hr1)⟩
    · simp only [Option.some.injEq, Prod.mk.injEq] at h
      obtain ⟨hv, hrs⟩ := h
      subst hv hrs
      exact ⟨by simpa using hb, ⟨r, List.mem_cons_self _ _, rfl⟩,
        fun r1 hr1 => List.mem_cons_of_mem _ hr1⟩

theorem move_enemy_spec (R mx my : Int) (i : Nat) (st st1 : EnemyPass)
    (h : move_enemy R mx my i st = some st1) :
    ∃ xrand yrand : Int,
      (∃ r ∈ st.rand, xrand = my_random R r (-1) 1) ∧
      (∃ r ∈ st.rand, yrand = my_random R r (-1) 1) ∧
      admissible_x mx (st.g.enemies i).x xrand = true ∧
      admissible_y my (st.g.enemies i).y yrand = true ∧
      (∀ r ∈ st1.rand, r ∈ st.rand) ∧
      st1.g.enemies i =
        ⟨(st.g.enemies i).x + xrand, (st.g.enemies i).y + yrand, (st.g.enemies i).alive⟩ ∧
      (xrand = 0 ∧ yrand = 0 →
        (st1.enemy_mag, st1.g.enemy_bullet_index) =
          fire (ENEMIES * MAGSIZE) (st.enemy_mag, st.g.enemy_bullet_index)
            ((st.g.enemies i).x + xrand + 2) ((st.g.enemies i).y + yrand - 4)) ∧
      (¬ (xrand = 0 ∧ yrand = 0) →
        st1.enemy_mag = st.enemy_mag ∧ st1.g.enemy_bullet_index = st.g.enemy_bullet_index) := by
  unfold move_enemy at h
  dsimp only at h
  split at h
  · exact absurd h (by simp)
  · rename_i xrand rs1 hx
    split at h
    · exact absurd h (by simp)
    · rename_i yrand rs2 hy
      obtain ⟨hxb, hxr, hxs⟩ := sample_step_spec R _ _ _ _ hx
      obtain ⟨hyb, ⟨ry, hry, hyv⟩, hys⟩ := sample_step_spec R _ _ _ _ hy
      refine ⟨xrand, yrand, hxr, ⟨ry, hxs ry hry, hyv⟩, ?_, ?_, ?_⟩
      · unfold admissible_x; rw [hxb]; rfl
      · unfold admissible_y; rw [hyb]; rfl
      · split at h
        · rename_i hz
          simp only [Option.some.injEq] at h
          subst h
          refine ⟨fun r hr => hxs r (hys r hr), ?_, fun _ => rfl, fun hn => absurd hz hn⟩
          dsimp only
          rw [Function.update_same]
        · rename_i hz
          simp only [Option.some.injEq] at h
          subst h
          refine ⟨fun r hr => hxs r (hys r hr), ?_, fun hn => absurd hn hz, fun _ => ⟨rfl, rfl⟩⟩
          dsimp only
          rw [Function.update_same]

theorem loop_collide_rest (fm : Mag) (i n : Nat) (g : Globals) :
    (loop (collide_body fm i) n g).enemy_bullet_index = g.enemy_bullet_index :=
  (loop_collide_cursors fm i n g).1

theorem body_spec (R mx my : Int) (fm : Mag) (i : Nat) (st st1 : EnemyPass)
    (h : update_enemies_body R mx my fm i st = some st1) :
    (∀ r ∈ st1.rand, r ∈ st.rand) ∧
    ((st.g.enemies i).alive = false →
      st1.enemy_mag = st.enemy_mag ∧ st1.g.enemy_bullet_index = st.g.enemy_bullet_index ∧
      (st1.g.enemies i).x = (st.g.enemies i).x ∧ (st1.g.enemies i).y = (st.g.enemies i).y) ∧
    ((st.g.enemies i).alive = true →
      ∃ xrand yrand : Int,
        (∃ r ∈ st.rand, xrand = my_random R r (-1) 1) ∧
        (∃ r ∈ st.rand, yrand = my_random R r (-1) 1) ∧
        admissible_x mx (st.g.enemies i).x xrand = true ∧
        admissible_y my (st.g.enemies i).y yrand = true ∧
        (st1.g.enemies i).x = (st.g.enemies i).x + xrand ∧
        (st1.g.enemies i).y = (st.g.enemies i).y + yrand ∧
        (xrand = 0 ∧ yrand = 0 →
          (st1.enemy_mag, st1.g.enemy_bullet_index) =
            fire (ENEMIES * MAGSIZE) (st.enemy_mag, st.g.enemy_bullet_index)
              ((st.g.enemies i).x + xrand + 2) ((st.g.enemies i).y + yrand - 4)) ∧
        (¬ (xrand = 0 ∧ yrand = 0) →
          st1.enemy_mag = st.enemy_mag ∧
          st1.g.enemy_bullet_index = st.g.enemy_bullet_index)) := by
  unfold update_enemies_body at h
  generalize hn : MAGSIZE * ENEMIES = n at h
  simp only [Option.map_eq_some'] at h
  obtain ⟨s0, h0, rfl⟩ := h
  have hpos := loop_collide_pos fm i s0.g n i
  have hcur := loop_collide_rest fm i n s0.g
  dsimp only
  by_cases ha : (st.g.enemies i).alive = true
  · rw [if_pos ha] at h0
    obtain ⟨xr, yr, hxr, hyr, hax, hay, hsub, he, hf, hnf⟩ := move_enemy_spec R mx my i st s0 h0
    refine ⟨hsub, fun hd => absurd ha (by simp [hd]), fun _ => ⟨xr, yr, hxr, hyr, hax, hay, ?_, ?_,
      fun hz => ?_, fun hz => ?_⟩⟩
    · rw [hpos.1, he]
    · rw [hpos.2, he]
    · rw [hcur, ← hn]; exact hf hz
    · rw [hcur]; exact hnf hz
  · rw [if_neg ha] at h0
    simp only [Option.some.injEq] at h0
    subst h0
    exact ⟨fun r hr => hr, fun _ => ⟨rfl, hcur, hpos.1, hpos.2⟩, fun ht => absurd ht ha⟩

/-- C22: in one iteration of the outer loop of `update_enemies` a dead roster
slot leaves the enemy magazine and `enemy_bullet_index` as they are.  An alive
enemy whose two accepted steps are zero (its position is the one it had) fires:
the slot at `enemy_bullet_index` becomes alive at `(enemy.x + 2, enemy.y - 4)`
and the cursor becomes `(enemy_bullet_index + 1) % (MAGSIZE * ENEMIES)`; with
any other accepted steps magazine and cursor are as they were.  So the cursor
moves exactly when the enemy is alive and holds its position. -/
theorem enemy_fires_iff_holding (RAND_MAX max_x max_y : Int) (friendly_mag : Mag) (i : Nat)
    (st st1 : EnemyPass)
    (h : update_enemies_body RAND_MAX max_x max_y friendly_mag i st = some st1) :
    ((st.g.enemies i).alive = false →
      st1.enemy_mag = st.enemy_mag ∧ st1.g.enemy_bullet_index = st.g.enemy_bullet_index) ∧
    ((st.g.enemies i).alive = true →
      (st1.g.enemies i).x = (st.g.enemies i).x ∧ (st1.g.enemies i).y = (st.g.enemies i).y →
      st1.enemy_mag =
        Function.update st.enemy_mag st.g.enemy_bullet_index
          { x := (st1.g.enemies i).x + 2, y := (st1.g.enemies i).y - 4,
            dir := (st.enemy_mag st.g.enemy_bullet_index).dir, alive := true } ∧
      st1.g.enemy_bullet_index = (st.g.enemy_bullet_index + 1) % (MAGSIZE * ENEMIES)) ∧
    ((st.g.enemies i).alive = true →
      ¬ ((st1.g.enemies i).x = (st.g.enemies i).x ∧ (st1.g.enemies i).y = (st.g.enemies i).y) →
      st1.enemy_mag = st.enemy_mag ∧ st1.g.enemy_bullet_index = st.g.enemy_bullet_index) ∧
    (st1.g.enemy_bullet_index ≠ st.g.enemy_bullet_index ↔
      (st.g.enemies i).alive = true ∧ (st1.g.enemies i).x = (st.g.enemies i).x ∧
        (st1.g.enemies i).y = (st.g.enemies i).y) := by
  obtain ⟨-, hdead, halive⟩ := body_spec RAND_MAX max_x max_y friendly_mag i st st1 h
  have hfire : ∀ xr yr : Int, xr = 0 ∧ yr = 0 →
      (st1.g.enemies i).x = (st.g.enemies i).x + xr →
      (st1.g.enemies i).y = (st.g.enemies i).y + yr →
      (st1.enemy_mag, st1.g.enemy_bullet_index) =
        fire (ENEMIES * MAGSIZE) (st.enemy_mag, st.g.enemy_bullet_index)
          ((st.g.enemies i).x + xr + 2) ((st.g.enemies i).y + yr - 4) →
      st1.enemy_mag =
        Function.update st.enemy_mag st.g.enemy_bullet_index
          { x := (st1.g.enemies i).x + 2, y := (st1.g.enemies i).y - 4,
            dir := (st.enemy_mag st.g.enemy_bullet_index).dir, alive := true } ∧
      st1.g.enemy_bullet_index = (st.g.enemy_bullet_index + 1) % (MAGSIZE * ENEMIES) := by
    intro xr yr _ hx hy hf
    have hf1 := (Prod.mk.inj hf).1
    have hf2 := (Prod.mk.inj hf).2
    rw [hf1, hf2, hx, hy]
    exact ⟨rfl, rfl⟩
  have hmove : ∀ c : Nat, (c + 1) % (MAGSIZE * ENEMIES) ≠ c := by
    intro c; simp only [MAGSIZE, ENEMIES]; omega
  refine ⟨fun hd => ⟨(hdead hd).1, (hdead hd).2.1⟩, fun ha hsame => ?_, fun ha hdiff => ?_, ?_⟩
  · obtain ⟨xr, yr, -, -, -, -, hx, hy, hf, -⟩ := halive ha
    have hz : xr = 0 ∧ yr = 0 := by constructor <;> omega
    exact hfire xr yr hz hx hy (hf hz)
  · obtain ⟨xr, yr, -, -, -, -, hx, hy, -, hnf⟩ := halive ha
    exact hnf (fun hz => hdiff (by constructor <;> omega))
  · constructor
    · intro hne
      by_cases ha : (st.g.enemies i).alive = true
      · obtain ⟨xr, yr, -, -, -, -, hx, hy, -, hnf⟩ := halive ha
        by_cases hz : xr = 0 ∧ yr = 0
        · exact ⟨ha, by omega, by omega⟩
        · exact absurd (hnf hz).2 hne
      · exact absurd (hdead (by simpa using ha)).2.1 hne
    · rintro ⟨ha, hx0, hy0⟩
      obtain ⟨xr, yr, -, -, -, -, hx, hy, hf, -⟩ := halive ha
      have hz : xr = 0 ∧ yr = 0 := by constructor <;> omega
      rw [(hfire xr yr hz hx hy (hf hz)).2]
      exact hmove _

theorem enemy_fires_iff_holding_witness :
    (update_enemies_body glibc_RAND_MAX 80 24 mag_clear 0 pass_one).map
      (fun s => (s.enemy_mag 0, s.g.enemy_bullet_index)) = some (⟨12, 16, -1, true⟩, 1) := by
  have hsome :
      (update_enemies_body glibc_RAND_MAX 80 24 mag_clear 0 pass_one).isSome = true := by
    decide
  obtain ⟨st1, h⟩ := Option.isSome_iff_exists.mp hsome
  have hpos : (update_enemies_body glibc_RAND_MAX 80 24 mag_clear 0 pass_one).map
      (fun s => ((s.g.enemies 0).x, (s.g.enemies 0).y)) = some (10, 20) := by decide
  rw [h] at hpos ⊢
  simp only [Option.map_some', Option.some.injEq, Prod.mk.injEq] at hpos ⊢
  have hf := (enemy_fires_iff_holding glibc_RAND_MAX 80 24 mag_clear 0 pass_one st1 h).2.1 rfl
    ⟨hpos.1, hpos.2⟩
  rw [hf.1, hf.2, hpos.1, hpos.2]
  exact ⟨by decide, by decide⟩

theorem update_enemies_loop_moves (R mx my : Int) (fm : Mag) (n : Nat) (st st1 : EnemyPass)
    (h : loopOpt (update_enemies_body R mx my fm) n st = some st1)
    (hr : ∀ r ∈ st.rand, 0 ≤ r ∧ r ≤ R) :
    (∀ r ∈ st1.rand, r ∈ st.rand) ∧
    (∀ i : Nat, n ≤ i → st1.g.enemies i = st.g.enemies i) ∧
    ∀ i : Nat, i < n → (st.g.enemies i).alive = true →
      (-1 ≤ (st1.g.enemies i).x - (st.g.enemies i).x ∧
        (st1.g.enemies i).x - (st.g.enemies i).x ≤ 1) ∧
      (-1 ≤ (st1.g.enemies i).y - (st.g.enemies i).y ∧
        (st1.g.enemies i).y - (st.g.enemies i).y ≤ 1) ∧
      0 < (st1.g.enemies i).x ∧ (st1.g.enemies i).x + ENEMYWIDTH < mx ∧
      0 < (st1.g.enemies i).y ∧ (st1.g.enemies i).y < my := by
  induction n generalizing st1 with
  | zero =>
    simp only [loopOpt, Option.some.injEq] at h
    subst h
    exact ⟨fun r hr1 => hr1, fun _ _ => rfl, fun i hi => absurd hi (Nat.not_lt_zero i)⟩
  | succ n ih =>
    obtain ⟨s0, h0, hb⟩ := loopOpt_succ_some _ n st st1 h
    obtain ⟨hsub0, hrest0, hmoved0⟩ := ih s0 h0
    obtain ⟨hsub1, -, halive⟩ := body_spec R mx my fm n s0 st1 hb
    refine ⟨fun r hr1 => hsub0 r (hsub1 r hr1), fun i hi => ?_, fun i hi ha => ?_⟩
    · rw [body_other R mx my fm n s0 st1 hb i (by omega)]
      exact hrest0 i (by omega)
    · rcases Nat.lt_succ_iff_lt_or_eq.mp hi with hlt | heq
      · rw [body_other R mx my fm n s0 st1 hb i (by omega)]
        exact hmoved0 i hlt ha
      · subst heq
        have hsame : s0.g.enemies i = st.g.enemies i := hrest0 i (le_refl i)
        rw [hsame] at halive
        obtain ⟨xr, yr, ⟨rx, hrx, hxv⟩, ⟨ry, hry, hyv⟩, hax, hay, hx, hy, -, -⟩ := halive ha
        have hxrange := my_random_range R rx (-1) 1 (by norm_num) (hr rx (hsub0 rx hrx)).1
          (hr rx (hsub0 rx hrx)).2
        have hyrange := my_random_range R ry (-1) 1 (by norm_num) (hr ry (hsub0 ry hry)).1
          (hr ry (hsub0 ry hry)).2
        rw [← hxv] at hxrange
        rw [← hyv] at hyrange
        unfold admissible_x at hax
        unfold admissible_y at hay
        simp only [Bool.not_eq_true', Bool.or_eq_false_iff, decide_eq_false_iff_not, not_le,
          ge_iff_le] at hax hay
        rw [hx, hy]
        refine ⟨⟨by omega, by omega⟩, ⟨by omega, by omega⟩, hax.1, hax.2, hay.1, hay.2⟩

/-- C21: when `update_enemies` returns, on a screen of size `(max_x, max_y)`
and with samples that `rand()` can return (in `[0, RAND_MAX]`), every roster
slot that was alive at the start of the call has moved by a step in
`{-1, 0, 1}` in each axis and lies strictly inside the playfield:
`0 < x`, `x + ENEMYWIDTH < max_x`, `0 < y < max_y`. -/
theorem live_enemies_step_inside_playfield (RAND_MAX max_x max_y : Int) (friendly_mag : Mag)
    (st st1 : EnemyPass)
    (h : update_enemies RAND_MAX max_x max_y friendly_mag st = some st1)
    (hr : ∀ r ∈ st.rand, 0 ≤ r ∧ r ≤ RAND_MAX)
    (i : Nat) (hi : i < ENEMIES) (ha : (st.g.enemies i).alive = true) :
    (-1 ≤ (st1.g.enemies i).x - (st.g.enemies i).x ∧
      (st1.g.enemies i).x - (st.g.enemies i).x ≤ 1) ∧
    (-1 ≤ (st1.g.enemies i).y - (st.g.enemies i).y ∧
      (st1.g.enemies i).y - (st.g.enemies i).y ≤ 1) ∧
    0 < (st1.g.enemies i).x ∧ (st1.g.enemies i).x + ENEMYWIDTH < max_x ∧
    0 < (st1.g.enemies i).y ∧ (st1.g.enemies i).y < max_y :=
  (update_enemies_loop_moves RAND_MAX max_x max_y friendly_mag ENEMIES st st1 h hr).2.2 i hi ha

theorem live_enemies_step_inside_playfield_witness :
    (update_enemies glibc_RAND_MAX 80 24 mag_clear { pass_one with rand := [0, forth] }).map
      (fun s => decide (0 < (s.g.enemies 0).x ∧ (s.g.enemies 0).x + ENEMYWIDTH < 80 ∧
        0 < (s.g.enemies 0).y ∧ (s.g.enemies 0).y < 24)) = some true := by
  have hsome : (update_enemies glibc_RAND_MAX 80 24 mag_clear
      { pass_one with rand := [0, forth] }).isSome = true := by decide
  obtain ⟨st1, h⟩ := Option.isSome_iff_exists.mp hsome
  have hw := live_enemies_step_inside_playfield glibc_RAND_MAX 80 24 mag_clear
    { pass_one with rand := [0, forth] } st1 h (by decide) 0 (by decide) rfl
  rw [h]
  simp only [Option.map_some', Option.some.injEq, decide_eq_true_eq]
  exact hw.2.2

/-! ## Enemy bullets -/

theorem init_mag_slot (mem : Mag) (friendly : Bool) (i : Nat) :
    init_mag mem friendly i =
      if i < (if friendly then MAGSIZE else ENEMIES * MAGSIZE) then
        ⟨0, 0, if friendly then 1 else -1, false⟩
      else mem i := by
  unfold init_mag
  generalize (if friendly then MAGSIZE else ENEMIES * MAGSIZE) = n
  induction n with
  | zero => simp [loop]
  | succ n ih =>
    simp only [loop, init_mag_body]
    by_cases hi : i = n
    · subst hi; simp
    · rw [Function.update_noteq hi, ih]
      have : i < n + 1 ↔ i < n := by omega
      simp only [this]

theorem update_bullets_enemy_inv (H : Int) (mag : Mag) (b : Int)
    (hinv : enemy_bullets_above_edge H mag) :
    enemy_bullets_above_edge H (update_bullets H mag b false).1 ∧
    (update_bullets H mag b false).2 = b ∧
    ∀ i : Nat, i < MAGSIZE * ENEMIES → (mag i).alive = true →
      ((update_bullets H mag b false).1 i).alive = true := by
  unfold update_bullets enemy_bullets_above_edge at *
  simp only [Bool.false_eq_true, if_false]
  generalize MAGSIZE * ENEMIES = n at hinv ⊢
  obtain ⟨h1, h2⟩ := update_bullets_loop H mag b n
  have hne : ∀ i, i < n → expires H (mag i) = false := by
    intro i hi
    by_cases he : expires H (mag i) = true
    · have := (expires_iff H (mag i)).mp he
      have := (hinv i hi).2 this.1
      omega
    · simpa using he
  refine ⟨fun i hi => ?_, ?_, fun i hi ha => ?_⟩
  · rw [h1 i, if_pos hi, hne i hi]
    simp only [Bool.false_eq_true, if_false]
    refine ⟨(hinv i hi).1, fun ha => ?_⟩
    have := (hinv i hi).2 ha
    have := (hinv i hi).1
    omega
  · rw [h2]
    unfold expiring
    rw [List.filter_eq_nil_iff.mpr (fun i hi => by
      rw [hne i (List.mem_range.mp hi)]; simp)]
    simp
  · rw [h1 i, if_pos hi, hne i hi]
    simpa using ha

theorem body_enemy_inv (R mx H : Int) (fm : Mag) (i : Nat) (st st1 : EnemyPass)
    (h : update_enemies_body R mx H fm i st = some st1)
    (hinv : enemy_bullets_above_edge H st.enemy_mag) :
    enemy_bullets_above_edge H st1.enemy_mag := by
  obtain ⟨-, hdead, halive⟩ := body_spec R mx H fm i st st1 h
  by_cases ha : (st.g.enemies i).alive = true
  · obtain ⟨xr, yr, -, -, -, hay, -, -, hf, hnf⟩ := halive ha
    by_cases hz : xr = 0 ∧ yr = 0
    · have hmag := (Prod.mk.inj (hf hz)).1
      rw [hmag]
      unfold admissible_y at hay
      simp only [Bool.not_eq_true', Bool.or_eq_false_iff, decide_eq_false_iff_not, not_le,
        ge_iff_le] at hay
      intro k hk
      show (Function.update st.enemy_mag st.g.enemy_bullet_index _ k).dir = -1 ∧
        ((Function.update st.enemy_mag st.g.enemy_bullet_index _ k).alive = true →
          (Function.update st.enemy_mag st.g.enemy_bullet_index _ k).y < H)
      by_cases hc : k = st.g.enemy_bullet_index
      · rw [hc, Function.update_same]
        refine ⟨(hinv _ (hc ▸ hk)).1, fun _ => ?_⟩
        show (st.g.enemies i).y + yr - 4 < H
        omega
      · rw [Function.update_noteq hc]
        exact hinv k hk
    · rw [(hnf hz).1]; exact hinv
  · rw [(hdead (by simpa using ha)).1]; exact hinv

theorem update_enemies_enemy_inv (R mx H : Int) (fm : Mag) (st st1 : EnemyPass)
    (h : update_enemies R mx H fm st = some st1)
    (hinv : enemy_bullets_above_edge H st.enemy_mag) :
    enemy_bullets_above_edge H st1.enemy_mag :=
  loopOpt_preserves (fun s => enemy_bullets_above_edge H s.enemy_mag)
    (update_enemies_body R mx H fm) (fun i s s1 hb hs => body_enemy_inv R mx H fm i s s1 hb hs)
    ENEMIES st st1 h hinv

theorem handle_key_enemy_mag (max_x max_y key : Int) (s : Game) :
    (handle_key max_x max_y key s).enemy_mag = s.enemy_mag := by
  unfold handle_key
  split_ifs <;> rfl

theorem step_enemy_inv (R H : Int) (s s1 : Game) (e : Event) (he : at_height H e)
    (h : step R s e = some s1) (hinv : enemy_bullets_above_edge H s.enemy_mag) :
    enemy_bullets_above_edge H s1.enemy_mag ∧
    ∀ i : Nat, i < MAGSIZE * ENEMIES → (s.enemy_mag i).alive = true →
      (s1.enemy_mag i).alive = true := by
  cases e with
  | tick mx my key rand =>
    have hH : my = H := he
    subst hH
    unfold step at h
    dsimp only at h
    split_ifs at h with hg
    · simp only [Option.some.injEq] at h; subst h; exact ⟨hinv, fun _ _ ha => ha⟩
    · unfold tick at h
      simp only [Option.map_eq_some'] at h
      obtain ⟨s0, h0, rfl⟩ := h
      rw [handle_key_enemy_mag]
      unfold update_phase at h0
      dsimp only at h0
      split at h0
      · exact absurd h0 (by simp)
      · rename_i st hst
        simp only [Option.some.injEq] at h0
        subst h0
        dsimp only
        obtain ⟨hb1, -, hb3⟩ := update_bullets_enemy_inv my s.enemy_mag 0 hinv
        exact ⟨update_enemies_enemy_inv R mx my _ _ st hst hb1, fun i hi ha =>
          update_enemies_keeps_bullets_alive R mx my _ _ st hst i (hb3 i hi ha)⟩
  | alarm mx my r1 r2 =>
    unfold step at h
    dsimp only at h
    split_ifs at h with hg
    · simp only [Option.some.injEq] at h; subst h; exact ⟨hinv, fun _ _ ha => ha⟩
    · simp only [Option.some.injEq] at h; subst h; exact ⟨hinv, fun _ _ ha => ha⟩

theorem run_enemy_inv (R H : Int) (evs : List Event) (s0 s : Game)
    (hev : ∀ e ∈ evs, at_height H e) (h : run R s0 evs = some s)
    (hinv : enemy_bullets_above_edge H s0.enemy_mag) :
    enemy_bullets_above_edge H s.enemy_mag ∧
    ∀ i : Nat, i < MAGSIZE * ENEMIES → (s0.enemy_mag i).alive = true →
      (s.enemy_mag i).alive = true := by
  induction evs generalizing s0 with
  | nil => simp only [run, Option.some.injEq] at h; subst h; exact ⟨hinv, fun _ _ ha => ha⟩
  | cons e es ih =>
    simp only [run, Option.bind_eq_some] at h
    obtain ⟨s1, h1, h2⟩ := h
    obtain ⟨hi1, ha1⟩ := step_enemy_inv R H s0 s1 e (hev e (List.mem_cons_self _ _)) h1 hinv
    obtain ⟨hi2, ha2⟩ := ih s1 (fun e1 he1 => hev e1 (List.mem_cons_of_mem _ he1)) h2 hi1
    exact ⟨hi2, fun i hi ha => ha2 i hi (ha1 i hi ha)⟩

theorem init_game_enemy_inv (R mx my r H : Int) (mf me : Mag) (mr : Roster) :
    enemy_bullets_above_edge H (init_game R mx my r mf me mr).enemy_mag := by
  intro i hi
  have hi2 : i < ENEMIES * MAGSIZE := by simp only [MAGSIZE, ENEMIES] at hi ⊢; omega
  show (init_mag me false i).dir = -1 ∧ ((init_mag me false i).alive = true → _)
  rw [init_mag_slot]
  simp only [Bool.false_eq_true, if_false, if_pos hi2]
  exact ⟨trivial, fun hf => absurd hf (by simp)⟩

/-- C25: an enemy-magazine slot that is alive with `y < max_y` is alive after
`update_bullets`.  And as long as the loop of `main` runs on a screen of one
height `H`, in every state reachable from the initial state every alive slot
of the enemy magazine has `dir = -1` and `y < H`, `update_bullets` on the
enemy magazine returns its count argument as it was, and a slot that is alive
is alive in every later state. -/
theorem enemy_bullets_never_expire :
    (∀ (max_y : Int) (mag : Mag) (bullets : Int) (i : Nat), i < MAGSIZE * ENEMIES →
      (mag i).alive = true → (mag i).y < max_y →
      ((update_bullets max_y mag bullets false).1 i).alive = true) ∧
    (∀ (RAND_MAX max_x max_y r_delay H : Int) (mem_f mem_e : Mag) (mem_r : Roster)
      (evs : List Event) (s : Game),
      (∀ e ∈ evs, at_height H e) →
      run RAND_MAX (init_game RAND_MAX max_x max_y r_delay mem_f mem_e mem_r) evs = some s →
      (∀ i : Nat, i < MAGSIZE * ENEMIES → (s.enemy_mag i).alive = true →
        (s.enemy_mag i).dir = -1 ∧ (s.enemy_mag i).y < H) ∧
      (∀ bullets : Int, (update_bullets H s.enemy_mag bullets false).2 = bullets) ∧
      (∀ (later : List Event) (s1 : Game), (∀ e ∈ later, at_height H e) →
        run RAND_MAX s later = some s1 →
        ∀ i : Nat, i < MAGSIZE * ENEMIES → (s.enemy_mag i).alive = true →
          (s1.enemy_mag i).alive = true)) := by
  constructor
  · intro max_y mag bullets i hi ha hy
    unfold update_bullets
    simp only [Bool.false_eq_true, if_false]
    generalize MAGSIZE * ENEMIES = n at hi
    have hne : expires max_y (mag i) = false := by
      by_cases he : expires max_y (mag i) = true
      · have := (expires_iff max_y (mag i)).mp he
        omega
      · simpa using he
    rw [(update_bullets_loop max_y mag bullets n).1 i, if_pos hi, hne]
    simpa using ha
  · intro R mx my r H mf me mr evs s hev h
    obtain ⟨hinv, -⟩ := run_enemy_inv R H evs _ s hev h (init_game_enemy_inv R mx my r H mf me mr)
    exact ⟨fun i hi ha => ⟨(hinv i hi).1, (hinv i hi).2 ha⟩,
      fun b => (update_bullets_enemy_inv H s.enemy_mag b hinv).2.1,
      fun later s1 hl h1 => (run_enemy_inv R H later s s1 hl h1 hinv).2⟩

theorem enemy_bullets_never_expire_witness :
    ((update_bullets 24 (fun _ => ⟨40, 5, -1, true⟩) 0 false).1 3).alive = true :=
  enemy_bullets_never_expire.1 24 (fun _ => ⟨40, 5, -1, true⟩) 0 3 (by decide) rfl (by decide)

/-! ## Ammunition -/

theorem alive_count_update (mag : Mag) (c n : Nat) (b : bullet)
    (hd : (mag c).alive = false) (hb : b.alive = true) :
    alive_count (Function.update mag c b) n = alive_count mag n + if c < n then 1 else 0 := by
  unfold alive_count
  induction n with
  | zero => simp
  | succ n ih =>
    rw [List.range_succ, List.countP_append, List.countP_append, ih]
    by_cases hcn : c = n
    · subst hcn
      simp [hd, hb]
    · rw [List.countP_cons, List.countP_cons, Function.update_noteq (Ne.symm hcn),
        List.countP_nil, List.countP_nil]
      by_cases hlt : c < n
      · have : c < n + 1 := by omega
        simp only [hlt, this, if_true]; omega
      · have : ¬ c < n + 1 := by omega
        simp only [hlt, this, if_false]; omega

theorem countP_split {α : Type} (l : List α) (p q r : α → Bool)
    (h : ∀ x ∈ l, p x = (q x || r x) ∧ (q x && r x) = false) :
    l.countP p = (l.filter q).length + l.countP r := by
  induction l with
  | nil => simp
  | cons a l ih =>
    have ha := h a (List.mem_cons_self _ _)
    have ih1 := ih (fun x hx => h x (List.mem_cons_of_mem _ hx))
    rw [List.countP_cons, List.countP_cons, ih1, List.filter_cons]
    cases hq : q a <;> cases hr : r a <;> simp [hq, hr] at ha <;> simp [ha, hq, hr] <;> omega

theorem cursor_slot_dormant (mag : Mag) (c : Nat) (a : Int) (hinv : magazine_inv mag c a)
    (ha : a ≠ 0) : (mag c).alive = false := by
  obtain ⟨hc, -, hsum, hord⟩ := hinv
  by_contra hal
  have hal1 : (mag c).alive = true := by simpa using hal
  have hall : ∀ i ∈ List.range MAGSIZE, (mag i).alive = true := by
    intro i hi
    have hi1 := List.mem_range.mp hi
    refine (hord i c hi1 hc ?_ hal1).1
    unfold age
    simp only [MAGSIZE] at hi1 hc ⊢
    omega
  have hcount : alive_count mag MAGSIZE = MAGSIZE := by
    unfold alive_count
    rw [List.countP_eq_length.mpr hall, List.length_range]
  rw [hcount] at hsum
  omega
theorem fire_magazine_inv (mag : Mag) (c : Nat) (a x q : Int)
    (hinv : magazine_inv mag c a) (ha : a ≠ 0) (hq : at_or_below q mag) :
    magazine_inv (fire MAGSIZE (mag, c) x q).1 (fire MAGSIZE (mag, c) x q).2 (a - 1) ∧
    at_or_below q (fire MAGSIZE (mag, c) x q).1 := by
  have hdorm := cursor_slot_dormant mag c a hinv ha
  obtain ⟨hc, hdir, hsum, hord⟩ := hinv
  have hslot : ∀ i : Nat, (fire MAGSIZE (mag, c) x q).1 i =
      if i = c then { x := x, y := q, dir := (mag c).dir, alive := true } else mag i := by
    intro i
    by_cases hi : i = c
    · subst hi; simp [fire, shoot_bullet]
    · simp [fire, Function.update_noteq hi, hi]
  have hcur : (fire MAGSIZE (mag, c) x q).2 = (c + 1) % MAGSIZE := rfl
  refine ⟨⟨?_, fun i hi => ?_, ?_, fun i1 i2 h1 h2 hage hal => ?_⟩, fun i hi hal => ?_⟩
  · rw [hcur]; exact Nat.mod_lt _ (by norm_num)
  · rw [hslot]; split_ifs with hic
    · exact hdir c hc
    · exact hdir i hi
  · have hcount := alive_count_update mag c MAGSIZE (shoot_bullet (mag c) x q) hdorm rfl
    rw [if_pos hc] at hcount
    have hfm : (fire MAGSIZE (mag, c) x q).1 = Function.update mag c (shoot_bullet (mag c) x q) :=
      rfl
    rw [hfm, hcount]
    have hM : ((MAGSIZE : Nat) : Int) = 10 := rfl
    push_cast at hsum ⊢
    omega
  · rw [hcur] at hage
    rw [hslot i1, hslot i2]
    rw [hslot i2] at hal
    by_cases h1c : i1 = c
    · rw [if_pos h1c]
      refine ⟨rfl, ?_⟩
      by_cases h2c : i2 = c
      · rw [if_pos h2c]
      · rw [if_neg h2c] at hal ⊢
        exact hq i2 h2 hal
    · have h2c : i2 ≠ c := by
        intro h2c
        unfold age at hage
        simp only [MAGSIZE] at h1 h2 hc hage
        omega
      rw [if_neg h1c]
      rw [if_neg h2c] at hal ⊢
      refine hord i1 i2 h1 h2 ?_ hal
      unfold age at hage ⊢
      simp only [MAGSIZE] at h1 h2 hc hage ⊢
      omega
  · rw [hslot] at hal ⊢
    split_ifs with hic
    · exact le_refl q
    · rw [if_neg hic] at hal
      exact hq i hi hal

theorem volley_magazine_inv (mag : Mag) (c : Nat) (a x y : Int) (n : Nat)
    (hinv : magazine_inv mag c a) (hq : at_or_below (y + 1) mag) (hn : (n : Int) ≤ a) :
    magazine_inv (loop (volley_body x y) n (mag, c)).1 (loop (volley_body x y) n (mag, c)).2
      (a - n) ∧
    at_or_below (y + 1) (loop (volley_body x y) n (mag, c)).1 := by
  induction n with
  | zero => simpa [loop] using ⟨hinv, hq⟩
  | succ n ih =>
    obtain ⟨hi1, hi2⟩ := ih (by push_cast at hn; omega)
    have hf := fire_magazine_inv _ _ (a - n) (x + Int.tdiv ((n : Int) * PLANEWIDTH) 4) (y + 1)
      hi1 (by push_cast at hn; omega) hi2
    have ha : a - (n : Int) - 1 = a - ((n + 1 : Nat) : Int) := by push_cast; ring
    rw [ha] at hf
    exact hf

theorem update_bullets_magazine_inv (h : Int) (mag : Mag) (c : Nat) (a q : Int)
    (hinv : magazine_inv mag c a) (hq : at_or_below q mag) (hq1 : 1 ≤ q) :
    magazine_inv (update_bullets h mag a true).1 c (update_bullets h mag a true).2 ∧
    at_or_below (q + 1) (update_bullets h mag a true).1 := by
  obtain ⟨hc, hdir, hsum, hord⟩ := hinv
  have hloop := update_bullets_loop h mag a MAGSIZE
  have hub : update_bullets h mag a true = loop (update_bullets_body h) MAGSIZE (mag, a) := rfl
  rw [hub]
  obtain ⟨h1, h2⟩ := hloop
  have hslot : ∀ i : Nat, i < MAGSIZE →
      (loop (update_bullets_body h) MAGSIZE (mag, a)).1 i =
        if expires h (mag i) then { mag i with alive := false }
        else { mag i with y := (mag i).y + 1 } := by
    intro i hi
    rw [h1 i, if_pos hi, hdir i hi]
  have hlive : ∀ i : Nat, i < MAGSIZE →
      ((loop (update_bullets_body h) MAGSIZE (mag, a)).1 i).alive = true →
      (mag i).alive = true ∧ (mag i).y < h ∧
      ((loop (update_bullets_body h) MAGSIZE (mag, a)).1 i).y = (mag i).y + 1 := by
    intro i hi hal
    rw [hslot i hi] at hal ⊢
    by_cases he : expires h (mag i) = true
    · rw [if_pos he] at hal; exact absurd hal (by simp)
    · rw [if_neg he] at hal ⊢
      have hal1 : (mag i).alive = true := hal
      refine ⟨hal1, ?_, rfl⟩
      have hy := hq i hi hal1
      by_contra hge
      exact he ((expires_iff h (mag i)).mpr ⟨hal1, by omega, by omega⟩)
  refine ⟨⟨hc, fun i hi => ?_, ?_, fun i1 i2 hi1 hi2 hage hal => ?_⟩, fun i hi hal => ?_⟩
  · rw [hslot i hi]; split_ifs <;> exact hdir i hi
  · rw [h2]
    have hsplit := countP_split (List.range MAGSIZE) (fun i => (mag i).alive)
      (fun i => expires h (mag i))
      (fun i => ((loop (update_bullets_body h) MAGSIZE (mag, a)).1 i).alive)
      (fun i hi => by
        have hi1 := List.mem_range.mp hi
        dsimp only
        rw [hslot i hi1]
        by_cases he : expires h (mag i) = true
        · rw [if_pos he, he, ((expires_iff h (mag i)).mp he).1]; exact ⟨rfl, rfl⟩
        · have he1 : expires h (mag i) = false := by simpa using he
          rw [if_neg he, he1]; exact ⟨by simp, by simp⟩)
    unfold alive_count at hsum ⊢
    unfold expiring
    rw [hsplit] at hsum
    have hM : ((MAGSIZE : Nat) : Int) = 10 := rfl
    push_cast at hsum ⊢
    omega
  · obtain ⟨ha2, hy2, hy2'⟩ := hlive i2 hi2 hal
    obtain ⟨ha1, hy12⟩ := hord i1 i2 hi1 hi2 hage ha2
    have hne : ¬ expires h (mag i1) = true := fun he => by
      have := ((expires_iff h (mag i1)).mp he).2.1
      omega
    rw [hy2', hslot i1 hi1, if_neg hne]
    exact ⟨ha1, by dsimp only; omega⟩
  · obtain ⟨ha1, -, hy1⟩ := hlive i hi hal
    rw [hy1]
    have := hq i hi ha1
    omega
theorem at_or_below_mono (q1 q2 : Int) (mag : Mag) (h : q1 ≤ q2) (hq : at_or_below q2 mag) :
    at_or_below q1 mag :=
  fun i hi hal => le_trans h (hq i hi hal)

theorem handle_key_player_inv (max_x max_y key : Int) (s : Game)
    (hinv : magazine_inv s.friendly_mag s.bullet_index s.bullets)
    (hq : at_or_below (s.y + 2) s.friendly_mag) (hy : 0 ≤ s.y) :
    player_inv (handle_key max_x max_y key s) := by
  have hq1 : at_or_below (s.y + 1) s.friendly_mag :=
    at_or_below_mono _ _ _ (by omega) hq
  unfold handle_key player_inv
  simp only [KEY_UP, KEY_DOWN, KEY_LEFT, KEY_RIGHT, xdirection, ydirection]
  split_ifs with h1 h2 h3 h4 h5 h6 h7 h8 h9 h10 h11 h12 h13
  · exact ⟨hinv, at_or_below_mono _ _ _ (by dsimp only; omega) hq, by dsimp only; omega⟩
  · exact ⟨hinv, hq1, hy⟩
  · exact ⟨hinv, at_or_below_mono _ _ _ (by dsimp only; omega) hq, by dsimp only; omega⟩
  · exact ⟨hinv, hq1, hy⟩
  · exact ⟨hinv, hq1, hy⟩
  · exact ⟨hinv, hq1, hy⟩
  · exact ⟨hinv, hq1, hy⟩
  · exact ⟨hinv, hq1, hy⟩
  · have hf := fire_magazine_inv s.friendly_mag s.bullet_index s.bullets
      (s.x + Int.tdiv PLANEWIDTH 2) (s.y + 1) hinv (by assumption) hq1
    exact ⟨hf.1, hf.2, hy⟩
  · exact ⟨hinv, hq1, hy⟩
  · have hv := volley_magazine_inv s.friendly_mag s.bullet_index s.bullets s.x s.y SHOTGUN
      hinv hq1 (by assumption)
    exact ⟨hv.1, hv.2, hy⟩
  · exact ⟨hinv, hq1, hy⟩
  · exact ⟨hinv, hq1, hy⟩
  · exact ⟨hinv, hq1, hy⟩

theorem update_phase_player_inv (R mx my : Int) (rand : List Int) (s s0 : Game)
    (h : update_phase R mx my rand s = some s0) (hinv : player_inv s) :
    magazine_inv s0.friendly_mag s0.bullet_index s0.bullets ∧
    at_or_below (s0.y + 2) s0.friendly_mag ∧ 0 ≤ s0.y := by
  obtain ⟨hm, hq, hy⟩ := hinv
  unfold update_phase at h
  dsimp only at h
  split at h
  · exact absurd h (by simp)
  · simp only [Option.some.injEq] at h
    subst h
    obtain ⟨hm1, hq1⟩ := update_bullets_magazine_inv my s.friendly_mag s.bullet_index s.bullets
      (s.y + 1) hm hq (by omega)
    have hq2 : at_or_below (s.y + 2) (update_bullets my s.friendly_mag s.bullets true).1 := by
      have : s.y + 2 = s.y + 1 + 1 := by ring
      rw [this]; exact hq1
    exact ⟨hm1, hq2, hy⟩

theorem step_player_inv (R : Int) (s s1 : Game) (e : Event) (h : step R s e = some s1)
    (hinv : player_inv s) : player_inv s1 := by
  cases e with
  | tick mx my key rand =>
    unfold step at h
    dsimp only at h
    split_ifs at h with hg
    · simp only [Option.some.injEq] at h; subst h; exact hinv
    · unfold tick at h
      simp only [Option.map_eq_some'] at h
      obtain ⟨s0, h0, rfl⟩ := h
      obtain ⟨hm, hq, hy⟩ := update_phase_player_inv R mx my rand s s0 h0 hinv
      exact handle_key_player_inv mx my key s0 hm hq hy
  | alarm mx my r1 r2 =>
    unfold step at h
    dsimp only at h
    split_ifs at h with hg
    · simp only [Option.some.injEq] at h; subst h; exact hinv
    · simp only [Option.some.injEq] at h; subst h; exact hinv

theorem run_player_inv (R : Int) (evs : List Event) (s0 s : Game)
    (h : run R s0 evs = some s) (hinv : player_inv s0) : player_inv s := by
  induction evs generalizing s0 with
  | nil => simp only [run, Option.some.injEq] at h; subst h; exact hinv
  | cons e es ih =>
    simp only [run, Option.bind_eq_some] at h
    obtain ⟨s1, h1, h2⟩ := h
    exact ih s1 h2 (step_player_inv R s0 s1 e h1 hinv)

theorem init_game_player_inv (R mx my r : Int) (mf me : Mag) (mr : Roster) (hmy : 0 ≤ my) :
    player_inv (init_game R mx my r mf me mr) := by
  have hslot : ∀ i : Nat, i < MAGSIZE → init_mag mf true i = ⟨0, 0, 1, false⟩ := by
    intro i hi
    rw [init_mag_slot]
    simp only [if_true, if_pos hi]
  have hdorm : ∀ i : Nat, i < MAGSIZE → (init_mag mf true i).alive = false := by
    intro i hi; rw [hslot i hi]
  have hcount : alive_count (init_mag mf true) MAGSIZE = 0 := by
    unfold alive_count
    rw [List.countP_eq_zero]
    intro i hi
    rw [hdorm i (List.mem_range.mp hi)]
    simp
  refine ⟨⟨by show (0 : Nat) < MAGSIZE; norm_num, fun i hi => ?_, ?_, fun i1 i2 _ h2 _ hal => ?_⟩,
    fun i hi hal => ?_, ?_⟩
  · show (init_mag mf true i).dir = 1
    rw [hslot i hi]
  · show ((MAGSIZE : Nat) : Int) + (alive_count (init_mag mf true) MAGSIZE : Nat) = MAGSIZE
    rw [hcount]; simp
  · have hd := hdorm i2 h2
    have hal' : (init_mag mf true i2).alive = true := hal
    rw [hd] at hal'
    exact absurd hal' (by simp)
  · have hd := hdorm i hi
    have hal' : (init_mag mf true i).alive = true := hal
    rw [hd] at hal'
    exact absurd hal' (by simp)
  · show 0 ≤ Int.tdiv my 2
    rw [Int.tdiv_eq_ediv hmy (by norm_num)]
    omega

theorem volley_slots_dormant (mag : Mag) (c : Nat) (a : Int) (q : Int)
    (hinv : magazine_inv mag c a) (hq : at_or_below (q + 1) mag)
    (ha : (SHOTGUN : Int) ≤ a) (i : Nat) (hi : i < SHOTGUN) :
    (mag ((c + i) % MAGSIZE)).alive = false := by
  have hc := hinv.1
  obtain ⟨hm, -⟩ := volley_magazine_inv mag c a 0 q i hinv hq
    (by have : (i : Int) < 5 := by exact_mod_cast hi
        have h5 : ((SHOTGUN : Nat) : Int) = 5 := rfl
        omega)
  have hcur := volley_loop_cursor 0 q mag c i hc
  rw [hcur] at hm
  have hd := cursor_slot_dormant _ _ _ hm
    (by have : (i : Int) < 5 := by exact_mod_cast hi
        have h5 : ((SHOTGUN : Nat) : Int) = 5 := rfl
        omega)
  rw [volley_loop_other 0 q mag c i hc ((c + i) % MAGSIZE) (fun j hj => by
    simp only [MAGSIZE, SHOTGUN] at hi hc ⊢; omega)] at hd
  exact hd

/-- C24: in every state reachable from the initial state of a game started on
a screen of height `≥ 0` (whatever the later screen sizes, keys and samples),
`bullets` plus the number of alive player-magazine slots is `MAGSIZE`, so
`0 ≤ bullets ≤ MAGSIZE`.  The same holds after the updates of the next
iteration, where the key is handled: there the slot at the cursor is not alive
when `bullets ≠ 0` (a single shot writes it), and the five slots from the
cursor on are not alive when `bullets ≥ SHOTGUN` (a volley writes them). -/
theorem ammo_plus_live_bullets_is_magsize (RAND_MAX max_x max_y r_delay : Int)
    (mem_f mem_e : Mag) (mem_r : Roster) (hmy : 0 ≤ max_y) (evs : List Event) (s : Game)
    (h : run RAND_MAX (init_game RAND_MAX max_x max_y r_delay mem_f mem_e mem_r) evs =
      some s) :
    s.bullets + (alive_count s.friendly_mag MAGSIZE : Nat) = MAGSIZE ∧
    0 ≤ s.bullets ∧ s.bullets ≤ MAGSIZE ∧
    ∀ (mx my : Int) (rand : List Int) (s0 : Game),
      update_phase RAND_MAX mx my rand s = some s0 →
      s0.bullets + (alive_count s0.friendly_mag MAGSIZE : Nat) = MAGSIZE ∧
      (s0.bullets ≠ 0 → (s0.friendly_mag s0.bullet_index).alive = false) ∧
      (s0.bullets ≥ SHOTGUN → ∀ i : Nat, i < SHOTGUN →
        (s0.friendly_mag ((s0.bullet_index + i) % MAGSIZE)).alive = false) := by
  have hinv := run_player_inv RAND_MAX evs _ s h
    (init_game_player_inv RAND_MAX max_x max_y r_delay mem_f mem_e mem_r hmy)
  have hsum := hinv.1.2.2.1
  have hle : alive_count s.friendly_mag MAGSIZE ≤ MAGSIZE := by
    unfold alive_count
    have := List.countP_le_length (fun i => (s.friendly_mag i).alive)
      (l := List.range MAGSIZE)
    rwa [List.length_range] at this
  have hM : ((MAGSIZE : Nat) : Int) = 10 := rfl
  refine ⟨hsum, by omega, by omega, fun mx my rand s0 h0 => ?_⟩
  obtain ⟨hm, hq, -⟩ := update_phase_player_inv RAND_MAX mx my rand s s0 h0 hinv
  exact ⟨hm.2.2.1, fun hne => cursor_slot_dormant _ _ _ hm hne,
    fun hge i hi => volley_slots_dormant _ _ _ (s0.y + 1) hm
      (at_or_below_mono _ _ _ (by omega) hq) hge i hi⟩

theorem ammo_plus_live_bullets_is_magsize_witness :
    (run glibc_RAND_MAX game_start shot_then_volley).map
      (fun s => (s.bullets, alive_count s.friendly_mag MAGSIZE)) = some (4, 6) := by
  have hsome : (run glibc_RAND_MAX game_start shot_then_volley).isSome = true := by decide
  obtain ⟨s, h⟩ := Option.isSome_iff_exists.mp hsome
  have hb : (run glibc_RAND_MAX game_start shot_then_volley).map (fun s => s.bullets) =
      some 4 := by decide
  have hw := (ammo_plus_live_bullets_is_magsize glibc_RAND_MAX 80 14 hold mem_off enemy_mag_zero
    (fun _ => ⟨0, 0, false⟩) (by decide) shot_then_volley s h).1
  rw [h] at hb ⊢
  simp only [Option.map_some', Option.some.injEq, Prod.mk.injEq] at hb ⊢
  refine ⟨hb, ?_⟩
  rw [hb] at hw
  have hM : ((MAGSIZE : Nat) : Int) = 10 := rfl
  omega

end FlightSim
